import Mathlib

/-!
Verification of the rust_chat_app server against its specification.

The Rust source is shallowly embedded: SQL tables become lists of rows,
UUIDs become naturals drawn from a fresh-id counter, timestamps become
naturals, and each repository operation or handler becomes a pure state
transition translated statement-by-statement from the source.  Database
transactions are modelled as atomic state transitions (each multi-row
mutation in the source runs inside a single transaction, and
concurrent executions of atomic transitions serialize).
-/

namespace RustChat

/-! ## Error model (src/server/src/errors/error.rs)

The `error_codes` module itself is absent from the provided sources (only
`errors/error.rs` which references it); its string constants follow the
spec, section 6/7, which lists the stable code strings. -/

inductive AppError where
  | Db
  | Internal
  | Validation
  | WrongCredentials
  | SessionExpired
  | InvalidToken
  | UsernameAlreadyExists
  | UserNotFound
  | UserHasNoKeys
  | RoomNotFound
  | AlreadyRoomMember
  | TargetAlreadyRoomMember
  | NotRoomMember
  | TargetNotRoomMember
  | NotRoomAdmin
  | InvitationNotFound
  | NoPendingInvitation
  | AlreadyInvited
  | MessageNotFound
  | NotMessageAuthor
  | FileNotFound
  | ExceedingFileLimit
  | InvalidRequestFormat
deriving Repr, DecidableEq

/-- Modelled from the spec: the `error_codes` string constants (the module is
referenced by `errors/error.rs` but its file is not under src/); the spec
lists the stable code strings in sections 6 and 7.  Mirrors
`AppError::to_api_errors` which maps each variant to one code. -/
def AppError.apiCode : AppError → String
  | .Db => "internal_server_error"
  | .Internal => "internal_server_error"
  | .Validation => "validation_error"
  | .WrongCredentials => "wrong_credentials"
  | .SessionExpired => "session_expired"
  | .InvalidToken => "invalid_token"
  | .UsernameAlreadyExists => "username_already_exists"
  | .UserNotFound => "user_not_found"
  | .UserHasNoKeys => "user_has_no_keys"
  | .RoomNotFound => "room_not_found"
  | .AlreadyRoomMember => "already_room_member"
  | .TargetAlreadyRoomMember => "target_already_room_member"
  | .NotRoomMember => "not_room_member"
  | .TargetNotRoomMember => "target_not_room_member"
  | .NotRoomAdmin => "not_room_admin"
  | .InvitationNotFound => "invitation_not_found"
  | .NoPendingInvitation => "no_pending_invitation"
  | .AlreadyInvited => "already_invited"
  | .MessageNotFound => "message_not_found"
  | .NotMessageAuthor => "not_message_author"
  | .FileNotFound => "file_not_found"
  | .ExceedingFileLimit => "file_limit_exceeded"
  | .InvalidRequestFormat => "invalid_request_format"

/-- HTTP status assigned by `impl IntoResponse for AppError`
(src/server/src/errors/error.rs, lines 171-281). -/
def AppError.httpStatus : AppError → Nat
  | .Db => 500
  | .Internal => 500
  | .Validation => 400
  | .InvalidRequestFormat => 400
  | .UserHasNoKeys => 400
  | .WrongCredentials => 401
  | .SessionExpired => 401
  | .InvalidToken => 401
  | .UserNotFound => 404
  | .RoomNotFound => 404
  | .InvitationNotFound => 404
  | .MessageNotFound => 404
  | .NoPendingInvitation => 404
  | .FileNotFound => 404
  | .UsernameAlreadyExists => 409
  | .AlreadyRoomMember => 409
  | .TargetAlreadyRoomMember => 409
  | .AlreadyInvited => 409
  | .NotRoomMember => 403
  | .TargetNotRoomMember => 403
  | .NotRoomAdmin => 403
  | .NotMessageAuthor => 403
  | .ExceedingFileLimit => 400

/-! ## Key directory rows (src/server/src/database/models.rs) -/

structure IdentityKey where
  user_id : Nat
  identity_key : String
  registration_id : Int
  created_at : Nat
deriving Repr, DecidableEq

structure SignedPreKey where
  id : Nat
  user_id : Nat
  key_id : Int
  public_key : String
  signature : String
  created_at : Nat
deriving Repr, DecidableEq

structure OneTimePreKey where
  user_id : Nat
  key_id : Int
  public_key : String
  created_at : Nat
deriving Repr, DecidableEq

/-- `SELECT * FROM identity_keys WHERE user_id = $1` with `fetch_optional`
(`get_identity_key`, keys.rs lines 133-138); `user_id` is the primary key. -/
def get_identity_key (uid : Nat) (tbl : List IdentityKey) : Option IdentityKey :=
  tbl.find? (fun k => k.user_id = uid)

/-- The row selected by
`SELECT * FROM signed_prekeys WHERE user_id = $1 ORDER BY created_at DESC LIMIT 1`
(`get_signed_prekey`, keys.rs lines 141-148): a row of the user with maximal
`created_at` (ties broken arbitrarily; the model keeps the earlier row). -/
def latestSignedPreKey (uid : Nat) : List SignedPreKey → Option SignedPreKey
  | [] => none
  | r :: rs =>
    match latestSignedPreKey uid rs with
    | none => if r.user_id = uid then some r else none
    | some m => if r.user_id = uid ∧ m.created_at < r.created_at then some r else some m

/-- The row selected by the subquery of `consume_one_time_prekey`
(keys.rs lines 155-166):
`SELECT key_id FROM one_time_prekeys WHERE user_id = $1 ORDER BY key_id ASC LIMIT 1`.
Returns a row of the user with minimal `key_id`. -/
def lowestOneTimePreKey (uid : Nat) : List OneTimePreKey → Option OneTimePreKey
  | [] => none
  | r :: rs =>
    match lowestOneTimePreKey uid rs with
    | none => if r.user_id = uid then some r else none
    | some m => if r.user_id = uid ∧ r.key_id < m.key_id then some r else some m

/-- `consume_one_time_prekey` (keys.rs lines 150-171): one atomic statement
deleting the user's row with the lowest `key_id` and returning it
(`DELETE ... WHERE user_id = $1 AND key_id = (SELECT ... ORDER BY key_id ASC
LIMIT 1 FOR UPDATE SKIP LOCKED) RETURNING *`).  The statement is modelled as
one atomic step on the table; `FOR UPDATE SKIP LOCKED` makes racing executions
serialize, so a race of N callers is a sequence of N such steps. -/
def consume_one_time_prekey (uid : Nat) (tbl : List OneTimePreKey) :
    Option OneTimePreKey × List OneTimePreKey :=
  match lowestOneTimePreKey uid tbl with
  | none => (none, tbl)
  | some r => (some r, tbl.filter (fun q => ¬ (q.user_id = uid ∧ q.key_id = r.key_id)))

/-- N sequential calls of `consume_one_time_prekey` (the serialization of a
race of N callers): the list of the N results and the final table. -/
def consumeN (uid : Nat) : Nat → List OneTimePreKey → List (Option OneTimePreKey) × List OneTimePreKey
  | 0, tbl => ([], tbl)
  | n + 1, tbl =>
    let p := consume_one_time_prekey uid tbl
    let q := consumeN uid n p.2
    (p.1 :: q.1, q.2)

/-- The rows of one user in the one-time pre-key table. -/
def userOtks (uid : Nat) (tbl : List OneTimePreKey) : List OneTimePreKey :=
  tbl.filter (fun r => r.user_id = uid)

/-! ## Pre-key bundle fetch (src/server/src/handler/keys_handler.rs) -/

structure PreKeyBundleResp where
  identity_key : String
  registration_id : Int
  signed_key_id : Int
  signed_public_key : String
  signed_signature : String
  one_time_prekey : Option (Int × String)
deriving Repr, DecidableEq

/-! ## Core data model (src/server/src/database/models.rs, plus the
`left_at` / `is_visible` / row-id columns that the live SQL in rooms.rs,
invitations.rs and user_messages.rs reads and writes; the spec, section 9,
codifies this richer `room_members` shape). -/

inductive UserRole where
  | admin
  | user
deriving Repr, DecidableEq

inductive MessageType where
  | text
  | file
  | system
deriving Repr, DecidableEq

inductive MessageStatus where
  | sent
  | edited
  | deleted
deriving Repr, DecidableEq

inductive InvitationStatus where
  | pending
  | accepted
  | declined
deriving Repr, DecidableEq

structure UserRow where
  id : Nat
  username : String
  password_hash : String
  role : UserRole
  created_at : Nat
deriving Repr, DecidableEq

structure Room where
  id : Nat
  name : String
  creator_id : Nat
  creator_username : String
  admin_id : Nat
  admin_username : String
  created_at : Nat
deriving Repr, DecidableEq

structure RoomMember where
  id : Nat
  room_id : Nat
  room_name : String
  user_id : Nat
  username : String
  joined_at : Nat
  left_at : Option Nat
  is_visible : Bool
  last_read_at : Nat
  unread_count : Int
deriving Repr, DecidableEq

structure Invitation where
  id : Nat
  room_id : Nat
  room_name : String
  invitee_id : Nat
  invitee_username : String
  inviter_id : Nat
  inviter_username : String
  status : InvitationStatus
  created_at : Nat
deriving Repr, DecidableEq

/-- `author_id` / `author_username` are nullable in the live schema
(`insert_message` binds `Option<Uuid>` / `Option<String>`, and system
messages pass `None`). -/
structure UserMessage where
  id : Nat
  room_id : Nat
  room_name : String
  author_id : Option Nat
  author_username : Option String
  content : String
  message_type : MessageType
  status : MessageStatus
  created_at : Nat
deriving Repr, DecidableEq

/-- The relational state.  UUIDs generated by `Uuid::new_v4()` are modelled
by a fresh-id counter `nextId`: every id handed out is the current counter
value, and the counter only grows. -/
structure Db where
  users : List UserRow
  rooms : List Room
  members : List RoomMember
  invitations : List Invitation
  messages : List UserMessage
  nextId : Nat
deriving Repr, DecidableEq

/-! ## Repository operations -/

/-- `get_user_by_id` (users.rs): `SELECT * FROM users WHERE id = $1`. -/
def get_user_by_id (db : Db) (uid : Nat) : Option UserRow :=
  db.users.find? (fun u => u.id = uid)

/-- `get_user_by_username` (users.rs): `SELECT * FROM users WHERE username = $1`. -/
def get_user_by_username (db : Db) (uname : String) : Option UserRow :=
  db.users.find? (fun u => u.username = uname)

/-- `get_room_by_id` (rooms.rs lines 90-95). -/
def get_room_by_id (db : Db) (rid : Nat) : Option Room :=
  db.rooms.find? (fun r => r.id = rid)

/-- `is_member` (room_members.rs lines 108-122):
`SELECT * FROM room_members WHERE room_id = $1 AND user_id = $2` with
`fetch_optional(..).is_some()`.  Note: no `left_at` condition. -/
def is_member (db : Db) (rid uid : Nat) : Bool :=
  db.members.any (fun m => m.room_id = rid ∧ m.user_id = uid)

/-- `is_admin` (room_members.rs lines 125-138):
`SELECT * FROM rooms WHERE id = $1 AND admin_id = $2` is some. -/
def is_admin (db : Db) (rid uid : Nat) : Bool :=
  db.rooms.any (fun r => r.id = rid ∧ r.admin_id = uid)

/-- `get_members` (room_members.rs lines 94-105):
`SELECT * FROM room_members WHERE room_id = $1` — all rows, active or not. -/
def get_members (db : Db) (rid : Nat) : List RoomMember :=
  db.members.filter (fun m => m.room_id = rid)

/-- `remove_member` (room_members.rs lines 75-91):
`DELETE FROM room_members WHERE room_id = $1 AND user_id = $2 RETURNING *`
with `fetch_optional` (one of the deleted rows, or none). -/
def remove_member (db : Db) (rid uid : Nat) : Option RoomMember × Db :=
  ((db.members.filter (fun m => m.room_id = rid ∧ m.user_id = uid)).head?,
   { db with members := db.members.filter (fun m => ¬ (m.room_id = rid ∧ m.user_id = uid)) })

/-- `increment_unread_count` (room_members.rs lines 195-213). -/
def increment_unread_count (db : Db) (rid uid : Nat) : Db :=
  { db with
    members := db.members.map (fun m =>
      if m.room_id = rid ∧ m.user_id = uid then { m with unread_count := m.unread_count + 1 } else m) }

/-- `insert_message` (user_messages.rs lines 46-73): insert a row with a
fresh id, status `sent`, `created_at = NOW()`; returns the row. -/
def insert_message (db : Db) (rid : Nat) (rname : String) (author_id : Option Nat)
    (author_username : Option String) (content : String) (mtype : MessageType)
    (now : Nat) : UserMessage × Db :=
  let msg : UserMessage :=
    { id := db.nextId, room_id := rid, room_name := rname, author_id := author_id,
      author_username := author_username, content := content, message_type := mtype,
      status := .sent, created_at := now }
  (msg, { db with messages := db.messages ++ [msg], nextId := db.nextId + 1 })

/-- `get_invitation_by_id` (invitations.rs lines 125-137). -/
def get_invitation_by_id (db : Db) (iid : Nat) : Option Invitation :=
  db.invitations.find? (fun i => i.id = iid)

/-- `create_room` (rooms.rs lines 43-87): one transaction inserting the room
(admin = creator) and one membership row for the creator.  The two
`Uuid::new_v4()` ids are drawn from the counter. -/
def create_room (db : Db) (name : String) (creator_id : Nat) (creator_username : String)
    (now : Nat) : Room × Db :=
  let room : Room :=
    { id := db.nextId, name := name, creator_id := creator_id,
      creator_username := creator_username, admin_id := creator_id,
      admin_username := creator_username, created_at := now }
  let m : RoomMember :=
    { id := db.nextId + 1, room_id := room.id, room_name := name, user_id := creator_id,
      username := creator_username, joined_at := now, left_at := none, is_visible := true,
      last_read_at := now, unread_count := 0 }
  (room,
   { db with
     rooms := db.rooms ++ [room]
     members := db.members ++ [m]
     nextId := db.nextId + 2 })

/-- `consume_invitations_and_join_room` (invitations.rs lines 156-212): one
transaction that (1) marks every pending invitation of `(room_id, user_id)`
accepted, (2) commits without inserting when the user is already an active
member, (3) otherwise inserts a fresh active membership row with
`unread_count = 0`, `last_read_at = NOW()`. -/
def consume_invitations_and_join_room (db : Db) (rid : Nat) (rname : String) (uid : Nat)
    (uname : String) (joined_at now : Nat) : Db :=
  let db1 : Db :=
    { db with
      invitations := db.invitations.map (fun i =>
        if i.room_id = rid ∧ i.invitee_id = uid ∧ i.status = .pending then
          { i with status := .accepted } else i) }
  if db1.members.any (fun m => m.room_id = rid ∧ m.user_id = uid ∧ m.left_at = none) then
    db1
  else
    { db1 with
      members := db1.members ++
        [{ id := db1.nextId, room_id := rid, room_name := rname, user_id := uid,
           username := uname, joined_at := joined_at, left_at := none, is_visible := true,
           last_read_at := now, unread_count := 0 }],
      nextId := db1.nextId + 1 }

/-- `leave_room` (rooms.rs lines 119-217), one transaction.
Returns `.error ()` exactly where the Rust function returns `Err`
(the `ok_or(RowNotFound)` on admin succession), in which case the
transaction is dropped and the state is unchanged.  Branches:
room missing → `Ok(None)`; caller not an active member → only
`is_visible := false`; last active member → fetch the room's invitations
(`SELECT * FROM invitations WHERE room_id = $1` — no status filter in the
source) and delete the room; otherwise set `left_at` and, if the leaver was
admin, promote the first other active member id. -/
def leave_room (db : Db) (rid uid now : Nat) :
    Except Unit (Option (List Invitation × Room)) × Db :=
  match db.rooms.find? (fun r => r.id = rid) with
  | none => (.ok none, db)
  | some room =>
    if db.members.any (fun m => m.room_id = rid ∧ m.user_id = uid ∧ m.left_at = none) then
      let member_ids :=
        (db.members.filter (fun m => m.room_id = rid ∧ m.left_at = none)).map (fun m => m.user_id)
      if member_ids.length = 1 then
        let pending_invs := db.invitations.filter (fun i => i.room_id = rid)
        (.ok (some (pending_invs, room)),
         { db with rooms := db.rooms.filter (fun r => ¬ r.id = rid) })
      else
        let db1 : Db :=
          { db with
            members := db.members.map (fun m =>
              if m.room_id = rid ∧ m.user_id = uid ∧ m.left_at = none then
                { m with left_at := some now, is_visible := false } else m) }
        if room.admin_id = uid then
          match member_ids.find? (fun i => ¬ i = uid) with
          | none => (.error (), db)
          | some new_admin =>
            (.ok (some ([], room)),
             { db1 with rooms := db1.rooms.map (fun r =>
                 if r.id = rid then { r with admin_id := new_admin } else r) })
        else
          (.ok (some ([], room)), db1)
    else
      (.ok (some ([], room)),
       { db with members := db.members.map (fun m =>
           if m.room_id = rid ∧ m.user_id = uid then { m with is_visible := false } else m) })

/-- Descending insertion by `created_at`, modelling `ORDER BY created_at DESC`
(ties are unspecified in SQL; the model keeps a fixed order). -/
def insertDescByCreated (m : UserMessage) : List UserMessage → List UserMessage
  | [] => [m]
  | x :: xs => if x.created_at ≤ m.created_at then m :: x :: xs else x :: insertDescByCreated m xs

def sortDescByCreated (l : List UserMessage) : List UserMessage :=
  l.foldr insertDescByCreated []

/-- The `left_at` clause of `get_room_messages`:
`rm.left_at IS NULL OR m.created_at <= rm.left_at`. -/
def withinLeft (rm : RoomMember) (m : UserMessage) : Bool :=
  match rm.left_at with
  | none => true
  | some t => m.created_at ≤ t

/-- `get_room_messages` (user_messages.rs lines 93-126): join the room's
messages with the caller's `room_members` rows, keep messages with
`joined_at ≤ created_at` and within `left_at`, order newest-first, apply
`LIMIT $3 OFFSET $4`, then `messages.reverse()` before returning. -/
def get_room_messages (db : Db) (rid uid : Nat) (lim off : Nat) : List UserMessage :=
  let joined := (db.messages.filter (fun m => m.room_id = rid)).flatMap (fun m =>
    (db.members.filter (fun rm =>
      decide (rm.room_id = m.room_id) && decide (rm.user_id = uid) &&
      withinLeft rm m && decide (rm.joined_at ≤ m.created_at))).map (fun _ => m))
  (((sortDescByCreated joined).drop off).take lim).reverse

/-! ## Pre-key bundle handler state -/

structure KeyDirState where
  users : List UserRow
  identity_keys : List IdentityKey
  signed_prekeys : List SignedPreKey
  one_time_prekeys : List OneTimePreKey
deriving Repr, DecidableEq

/-- `get_prekey_bundle` (keys_handler.rs lines 70-119), after bearer-token
verification (out of scope here): look the target up by username
(`UserNotFound`), require an identity key and a signed pre-key
(`UserHasNoKeys` for either, before anything is consumed), then consume one
one-time pre-key — `None` is fine — and assemble the bundle. -/
def get_prekey_bundle (st : KeyDirState) (username : String) :
    Except AppError PreKeyBundleResp × KeyDirState :=
  match st.users.find? (fun u => u.username = username) with
  | none => (.error .UserNotFound, st)
  | some user =>
    match get_identity_key user.id st.identity_keys with
    | none => (.error .UserHasNoKeys, st)
    | some ik =>
      match latestSignedPreKey user.id st.signed_prekeys with
      | none => (.error .UserHasNoKeys, st)
      | some sk =>
        let c := consume_one_time_prekey user.id st.one_time_prekeys
        (.ok { identity_key := ik.identity_key, registration_id := ik.registration_id,
               signed_key_id := sk.key_id, signed_public_key := sk.public_key,
               signed_signature := sk.signature,
               one_time_prekey := c.1.map (fun k => (k.key_id, k.public_key)) },
         { st with one_time_prekeys := c.2 })

/-! ## Refresh tokens (src/server/src/database/refresh_token.rs and
src/server/src/handler/auth_handler.rs) -/

structure RefreshTokenRow where
  id : Nat
  user_id : Nat
  token_hash : String
  expires_at : Nat
  created_at : Nat
deriving Repr, DecidableEq

structure AuthDb where
  tokens : List RefreshTokenRow
  nextId : Nat
deriving Repr, DecidableEq

/-- `get_refresh_token_by_hash`: `SELECT * FROM refresh_tokens WHERE token_hash = $1`. -/
def get_refresh_token_by_hash (db : AuthDb) (h : String) : Option RefreshTokenRow :=
  db.tokens.find? (fun t => t.token_hash = h)

/-- `POST /api/refresh-token` (auth_handler.rs lines 88-137), operating on
SHA-256 digests: the handler hashes the submitted plaintext, so two calls
with the same plaintext present the same `tokenHash`.  Look the record up by
hash (absent → `SessionExpired`); reject if `expires_at < now`
(`SessionExpired`, nothing deleted); otherwise delete the record by hash
(`delete_refresh_token_by_hash`, refresh_token.rs lines 80-96), and insert a
new record whose hash is the digest `newTokenHash` of a freshly generated
random token, expiring at `now + refreshExpiry`. -/
def refresh_token (db : AuthDb) (tokenHash : String) (now refreshExpiry : Nat)
    (newTokenHash : String) : Except AppError Unit × AuthDb :=
  match db.tokens.find? (fun t => t.token_hash = tokenHash) with
  | none => (.error .SessionExpired, db)
  | some tok =>
    if tok.expires_at < now then (.error .SessionExpired, db)
    else
      (.ok (),
       { db with
         tokens := db.tokens.filter (fun t => ¬ t.token_hash = tokenHash) ++
           [{ id := db.nextId, user_id := tok.user_id, token_hash := newTokenHash,
              expires_at := now + refreshExpiry, created_at := now }]
         nextId := db.nextId + 1 })

/-! ## File upload (src/server/src/handler/file_handler.rs).  The SHA-256
`file_hash` column is not modelled (hashing is specified only by its
security properties, spec section 1). -/

def MAX_FILE_SIZE : Nat := 50 * 1024 * 1024

structure FilePart where
  name : String
  data : List Nat
deriving Repr, DecidableEq

structure FileRecord where
  id : Nat
  encrypted_data : List Nat
  encrypted_metadata : Option (List Nat)
  size_in_bytes : Nat
  uploaded_at : Nat
deriving Repr, DecidableEq

structure FileDb where
  files : List FileRecord
  nextId : Nat
deriving Repr, DecidableEq

/-- The `while let Some(field) = body.next_field()` loop of `upload_file`
(file_handler.rs lines 32-52): any part longer than `MAX_FILE_SIZE` aborts
with `AppError::InvalidRequestFormat`; otherwise the fields named
`encrypted_data` / `encrypted_metadata` are remembered (last wins). -/
def collectParts : List FilePart → Option (List Nat) → Option (List Nat) →
    Except AppError (Option (List Nat) × Option (List Nat))
  | [], ed, em => .ok (ed, em)
  | p :: rest, ed, em =>
    if MAX_FILE_SIZE < p.data.length then .error .InvalidRequestFormat
    else if p.name = "encrypted_data" then collectParts rest (some p.data) em
    else if p.name = "encrypted_metadata" then collectParts rest ed (some p.data)
    else collectParts rest ed em

/-- `upload_file` (file_handler.rs lines 21-75): run the multipart loop;
a missing `encrypted_data` field yields `AppError::ExceedingFileLimit`;
otherwise insert the file row and answer with `(file_id, size_in_bytes,
uploaded_at)`. -/
def upload_file (db : FileDb) (parts : List FilePart) (now : Nat) :
    Except AppError (Nat × Nat × Nat) × FileDb :=
  match collectParts parts none none with
  | .error e => (.error e, db)
  | .ok (none, _) => (.error .ExceedingFileLimit, db)
  | .ok (some d, em) =>
    let rec_ : FileRecord :=
      { id := db.nextId, encrypted_data := d, encrypted_metadata := em,
        size_in_bytes := d.length, uploaded_at := now }
    (.ok (rec_.id, rec_.size_in_bytes, rec_.uploaded_at),
     { db with files := db.files ++ [rec_], nextId := db.nextId + 1 })

/-! ## WebSocket DTOs (src/server/src/dtos.rs) -/

inductive ClientReq where
  | CreateRoom (name : String)
  | JoinRoom (invitation_id : Nat)
  | LeaveRoom (room_id : Nat)
  | UpdateRoom (room_id : Nat) (name : String)
  | DeleteRoom (room_id : Nat)
  | GetRoomInfo (room_id : Nat)
  | GetRoomsInfo
  | Invite (room_id : Nat) (username : String)
  | DeclineInvitation (invitation_id : Nat)
  | GetPendingInvitations
  | SendMessage (room_id : Nat) (content : String) (message_type : Option MessageType)
  | EditMessage (message_id : Nat) (new_content : String)
  | DeleteMessage (message_id : Nat)
  | GetMessages (room_id : Nat) (lim off : Int)
  | DeleteAccount
  | KickMember (room_id : Nat) (username : String)
  | SearchUsers (query : String)
deriving Repr, DecidableEq

/-- The outbound event envelopes produced by the handlers modelled here
(`ServerResp`, dtos.rs lines 200-313; the variants emitted only by handlers
outside this development are omitted).  `Error` carries the list of api
error codes of its `Vec<ApiErrorItem>`. -/
inductive ServerResp where
  | RoomCreated (room_id : Nat) (room_name : String) (created_at : Nat)
  | RoomJoined (invitation_id room_id : Nat) (room_name admin_username creator_username : String)
      (created_at joined_at : Nat)
  | RoomLeft (room_id : Nat) (room_name : String)
  | MemberJoined (room_id : Nat) (room_name username : String) (joined_at : Nat)
  | MemberKicked (room_id : Nat) (room_name username : String)
  | MessageSent (message_id room_id : Nat) (room_name content : String)
      (message_type : MessageType) (created_at : Nat)
  | MessageReceived (message_id room_id : Nat) (room_name : String)
      (author_username : Option String) (content : String) (message_type : MessageType)
      (created_at : Nat)
  | Error (errors : List String)
deriving Repr, DecidableEq

/-- `SystemMessageContent` (dtos.rs lines 315-321). -/
inductive SystemMessageContent where
  | Joined (username : String)
  | Left (username : String)
  | Kicked (username byUser : String)
deriving Repr, DecidableEq

/-- serde_json rendering of `SystemMessageContent` (tagged `type`,
snake_case), as stored in the `content` column of system messages. -/
def sysContentJson : SystemMessageContent → String
  | .Joined u => "\x7b\"type\":\"joined\",\"username\":\"" ++ u ++ "\"\x7d"
  | .Left u => "\x7b\"type\":\"left\",\"username\":\"" ++ u ++ "\"\x7d"
  | .Kicked u b =>
      "\x7b\"type\":\"kicked\",\"username\":\"" ++ u ++ "\",\"by\":\"" ++ b ++ "\"\x7d"

/-- serde_json rendering of one `ApiErrorItem` without details. -/
def renderApiErrorItem (code : String) : String :=
  "\x7b\"code\":\"" ++ code ++ "\"\x7d"

/-- serde_json rendering of `ServerResp::Error` (tag field `type`,
snake_case variant name). -/
def renderErrorEvent (codes : List String) : String :=
  "\x7b\"type\":\"error\",\"errors\":[" ++
    String.intercalate "," (codes.map renderApiErrorItem) ++ "]\x7d"

/-! ## Session registry and handlers
(src/server/src/handler/ws_handler/...).  `channels` is the
`DashMap<Uuid, UnboundedSender<ServerResp>>` session registry together with
each connected user's mailbox queue: an association list from user id to the
FIFO list of enqueued events. -/

structure AppState where
  db : Db
  channels : List (Nat × List ServerResp)
deriving Repr, DecidableEq

/-- `send_event` (ws_handler/utils.rs lines 10-14): enqueue into the user's
mailbox if the registry holds one, silently drop otherwise. -/
def send_event (st : AppState) (uid : Nat) (ev : ServerResp) : AppState :=
  { st with channels := st.channels.map (fun e =>
      if e.1 = uid then (e.1, e.2 ++ [ev]) else e) }

/-- `send_error` (ws_handler/utils.rs lines 16-24): wrap
`error.to_api_errors()` in `ServerResp::Error` and send it. -/
def send_error (st : AppState) (uid : Nat) (e : AppError) : AppState :=
  send_event st uid (.Error [e.apiCode])

/-- The mailbox of a connected user. -/
def mailbox (st : AppState) (uid : Nat) : Option (List ServerResp) :=
  (st.channels.find? (fun e => e.1 = uid)).map (fun e => e.2)

/-- `create_and_broadcast_system_message` (ws_handler/utils.rs lines 28-74):
insert a `message_type = system` message with null author whose content is
the serialized tagged variant, then send `MessageReceived` to every
`room_members` row of the room.  Returns the inserted message. -/
def create_and_broadcast_system_message (st : AppState) (rid : Nat) (rname : String)
    (content : SystemMessageContent) (now : Nat) : UserMessage × AppState :=
  let p := insert_message st.db rid rname none none (sysContentJson content) .system now
  let ev : ServerResp :=
    .MessageReceived p.1.id p.1.room_id p.1.room_name p.1.author_username p.1.content
      p.1.message_type p.1.created_at
  let st1 : AppState := { db := p.2, channels := st.channels }
  (p.1, (get_members p.2 rid).foldl (fun s m => send_event s m.user_id ev) st1)

/-- The per-recipient loop of `send_message_response` (messages.rs lines
119-134): for every member id other than the author, increment that
member's unread count and send the `MessageReceived` event. -/
def notifyRecipients (uid rid : Nat) (ev : ServerResp) : AppState → List Nat → AppState
  | st, [] => st
  | st, mid :: rest =>
    if mid = uid then notifyRecipients uid rid ev st rest
    else
      notifyRecipients uid rid ev
        (send_event { st with db := increment_unread_count st.db rid mid } mid ev) rest

/-- `send_message_response` (messages.rs lines 17-148). -/
def send_message_response (st : AppState) (uid rid : Nat) (content : String)
    (message_type : Option MessageType) (now : Nat) : AppState :=
  let mtype := message_type.getD .text
  match get_room_by_id st.db rid with
  | none => send_error st uid .RoomNotFound
  | some room =>
    if ¬ is_member st.db rid uid then send_error st uid .NotRoomMember
    else
      match get_user_by_id st.db uid with
      | none => send_error st uid .Internal
      | some author =>
        let p := insert_message st.db rid room.name (some author.id) (some author.username)
          content mtype now
        let member_ids := (get_members p.2 rid).map (fun m => m.user_id)
        let ev : ServerResp :=
          .MessageReceived p.1.id p.1.room_id p.1.room_name p.1.author_username p.1.content
            p.1.message_type p.1.created_at
        let st1 := notifyRecipients uid rid ev { db := p.2, channels := st.channels } member_ids
        send_event st1 uid
          (.MessageSent p.1.id p.1.room_id p.1.room_name p.1.content p.1.message_type
            p.1.created_at)

/-- `join_room_response` (ws_handler/rooms.rs lines 53-182).  The checks, in
source order: invitation id exists (`NoPendingInvitation`), room exists,
actor has no `room_members` row at all (`AlreadyRoomMember`), the admin has
a member row, creator and actor exist as users; the invitation's `invitee_id`
and `status` are never compared with the actor. -/
def join_room_response (st : AppState) (uid iid now : Nat) : AppState :=
  match get_invitation_by_id st.db iid with
  | none => send_error st uid .NoPendingInvitation
  | some inv =>
    match get_room_by_id st.db inv.room_id with
    | none => send_error st uid .Internal
    | some room =>
      let members := get_members st.db inv.room_id
      if members.any (fun m => m.user_id = uid) then send_error st uid .AlreadyRoomMember
      else
        match (members.find? (fun m => m.user_id = room.admin_id)).map (fun m => m.username) with
        | none => send_error st uid .Internal
        | some admin_username =>
          match get_user_by_id st.db room.creator_id with
          | none => send_error st uid .Internal
          | some creator =>
            match get_user_by_id st.db uid with
            | none => send_error st uid .Internal
            | some invitee =>
              let db1 := consume_invitations_and_join_room st.db inv.room_id room.name uid
                invitee.username now now
              let st1 : AppState := { db := db1, channels := st.channels }
              let st2 := (create_and_broadcast_system_message st1 inv.room_id room.name
                (.Joined invitee.username) now).2
              let ev : ServerResp := .MemberJoined inv.room_id room.name invitee.username now
              let st3 := members.foldl (fun s m => send_event s m.user_id ev) st2
              send_event st3 uid
                (.RoomJoined iid room.id room.name admin_username creator.username
                  room.created_at now)

/-- `kick_member_response` (ws_handler/users.rs lines 35-165). -/
def kick_member_response (st : AppState) (uid rid : Nat) (username : String)
    (now : Nat) : AppState :=
  match get_room_by_id st.db rid with
  | none => send_error st uid .RoomNotFound
  | some room =>
    if ¬ is_admin st.db rid uid then send_error st uid .NotRoomAdmin
    else
      match get_user_by_username st.db username with
      | none => send_error st uid .UserNotFound
      | some target =>
        match remove_member st.db rid target.id with
        | (none, _) => send_error st uid .TargetNotRoomMember
        | (some deleted, db1) =>
          let admin_username := ((get_user_by_id db1 uid).map (fun u => u.username)).getD "Admin"
          let st1 : AppState := { db := db1, channels := st.channels }
          let p := create_and_broadcast_system_message st1 rid deleted.room_name
            (.Kicked deleted.username admin_username) now
          let st2 := send_event p.2 deleted.user_id
            (.MessageReceived p.1.id p.1.room_id p.1.room_name p.1.author_username p.1.content
              p.1.message_type p.1.created_at)
          let ev : ServerResp := .MemberKicked deleted.room_id deleted.room_name deleted.username
          let st3 := (get_members st2.db rid).foldl (fun s m => send_event s m.user_id ev) st2
          send_event st3 deleted.user_id (.MemberKicked rid room.name username)

/-- `leave_room_response` (ws_handler/rooms.rs lines 185-246).  Note that
the membership precondition is `is_member` — any row, active or not. -/
def leave_room_response (st : AppState) (uid rid now : Nat) : AppState :=
  match get_room_by_id st.db rid with
  | none => send_error st uid .RoomNotFound
  | some _ =>
    if ¬ is_member st.db rid uid then send_error st uid .NotRoomMember
    else
      let username := ((get_user_by_id st.db uid).map (fun u => u.username)).getD "Unknown"
      match leave_room st.db rid uid now with
      | (.ok (some pr), db1) =>
        let st1 : AppState := { db := db1, channels := st.channels }
        let st2 := (create_and_broadcast_system_message st1 rid pr.2.name
          (.Left username) now).2
        send_event st2 uid (.RoomLeft pr.2.id pr.2.name)
      | (_, db1) => send_error { db := db1, channels := st.channels } uid .Internal

/-- `create_room_response` (ws_handler/rooms.rs lines 20-50). -/
def create_room_response (st : AppState) (uid : Nat) (name : String) (now : Nat) : AppState :=
  match get_user_by_id st.db uid with
  | none => send_error st uid .Internal
  | some u =>
    let p := create_room st.db name uid u.username now
    send_event { db := p.2, channels := st.channels } uid
      (.RoomCreated p.1.id p.1.name p.1.created_at)

/-! ## Operation sequences over the handlers (claim C3) -/

inductive Op where
  | createRoom (actor : Nat) (name : String) (now : Nat)
  | joinRoom (actor invitation_id now : Nat)
  | leaveRoom (actor room_id now : Nat)
  | kickMember (actor room_id : Nat) (username : String) (now : Nat)
deriving Repr, DecidableEq

def step (st : AppState) : Op → AppState
  | .createRoom actor name now => create_room_response st actor name now
  | .joinRoom actor iid now => join_room_response st actor iid now
  | .leaveRoom actor rid now => leave_room_response st actor rid now
  | .kickMember actor rid uname now => kick_member_response st actor rid uname now

def run (st : AppState) : List Op → AppState
  | [] => st
  | op :: rest => run (step st op) rest

/-- A kick is admin-preserving when its resolved target is not the admin of
the resolved room (in particular the admin does not kick themselves — the
only way `KickMember` can remove a room's admin, since the actor must be
the admin). -/
def KickSafe (st : AppState) : Op → Prop
  | .kickMember _ rid uname _ =>
      ∀ room, get_room_by_id st.db rid = some room →
        ∀ u, get_user_by_username st.db uname = some u → u.id ≠ room.admin_id
  | _ => True

/-- Every kick along the trace is admin-preserving in the state it runs in. -/
def SafeTrace : AppState → List Op → Prop
  | _, [] => True
  | st, op :: rest => KickSafe st op ∧ SafeTrace (step st op) rest

/-! ## The WebSocket receive pump (src/server/src/handler/ws_handler/ws_router.rs) -/

inductive WsFrame where
  | text (parsed : Option ClientReq)
  | binary
  | close
  | ping
  | pong
deriving Repr, DecidableEq

/-- The receive pump of `handle_socket` (ws_router.rs lines 67-85).  A text
frame carries the result of `serde_json::from_str::<ClientReq>`; a parse
failure sends `InvalidRequestFormat` back through the sender's own mailbox
and the loop continues; parsed requests are dispatched to `handle_event`
(ws_router.rs lines 117-163), abstracted here as the function `h`; binary
frames do nothing; `Close` ends the loop; ping/pong need no action. -/
def recvPump (h : ClientReq → AppState → AppState) (uid : Nat) :
    List WsFrame → AppState → AppState
  | [], st => st
  | f :: rest, st =>
    match f with
    | .text none => recvPump h uid rest (send_error st uid .InvalidRequestFormat)
    | .text (some req) => recvPump h uid rest (h req st)
    | .binary => recvPump h uid rest st
    | .close => st
    | .ping => recvPump h uid rest st
    | .pong => recvPump h uid rest st

/-! ## The room/membership invariant (spec section 8, claim C3) -/

/-- The invariant of claim C3, strengthened to what the operations actually
maintain: room ids are unique and below the fresh-id counter, every room's
admin has an active membership row, active rows of a room belong to
pairwise-distinct users, and member rows only reference ids below the
counter. -/
def DbInv (db : Db) : Prop :=
  db.rooms.Pairwise (fun a b => a.id ≠ b.id) ∧
  (∀ r ∈ db.rooms, ∃ m ∈ db.members,
    m.room_id = r.id ∧ m.user_id = r.admin_id ∧ m.left_at = none) ∧
  db.members.Pairwise (fun a b =>
    a.room_id = b.room_id → a.left_at = none → b.left_at = none → a.user_id ≠ b.user_id) ∧
  (∀ r ∈ db.rooms, r.id < db.nextId) ∧
  (∀ m ∈ db.members, m.room_id < db.nextId)

/-! ## Concrete states used by counterexamples and witnesses -/

def uAlice : UserRow := ⟨1, "alice", "ha", .user, 0⟩
def uBob : UserRow := ⟨2, "bob", "hb", .user, 0⟩
def uCarol : UserRow := ⟨3, "carol", "hc", .user, 0⟩
def roomR : Room := ⟨0, "r", 1, "alice", 1, "alice", 0⟩
def rowAliceActive : RoomMember := ⟨10, 0, "r", 1, "alice", 0, none, true, 0, 0⟩
def rowBobActive : RoomMember := ⟨12, 0, "r", 2, "bob", 0, none, true, 0, 0⟩
def rowBobLeft : RoomMember := ⟨11, 0, "r", 2, "bob", 0, some 3, false, 0, 0⟩

/-- A state in which bob's only membership row for room 0 has `left_at` set. -/
def c2Db : Db := ⟨[uAlice, uBob], [roomR], [rowAliceActive, rowBobLeft], [], [], 20⟩

def c2St : AppState := ⟨c2Db, [(1, []), (2, [])]⟩

/-- A room whose only invitation is already declined, with one active member. -/
def c4DeclinedInv : Invitation := ⟨30, 0, "r", 3, "carol", 1, "alice", .declined, 1⟩

def c4Db : Db := ⟨[uAlice], [roomR], [rowAliceActive], [c4DeclinedInv], [], 40⟩

/-- Starting state for the claim C3 counterexample: two users and a pending
invitation for the room about to be created (id 0 is the first counter
value). -/
def c3SeedInv : Invitation := ⟨100, 0, "r", 2, "bob", 1, "alice", .pending, 0⟩

def c3Start : AppState := ⟨⟨[uAlice, uBob], [], [], [c3SeedInv], [], 0⟩, []⟩

/-- Create a room as alice, let bob join, then the admin alice kicks
herself. -/
def c3Ops : List Op := [.createRoom 1 "r" 0, .joinRoom 2 100 1, .kickMember 1 0 "alice" 2]

/-- A well-formed two-member room for the claim C3 witness: the admin
leaves and bob must be promoted. -/
def c3WitSt : AppState := ⟨⟨[uAlice, uBob], [roomR], [rowAliceActive, rowBobActive], [], [], 20⟩, []⟩

/-- Room 0 after the admin left: bob (id 2) was promoted. -/
def c3WitRoom : Room := ⟨0, "r", 1, "alice", 2, "alice", 0⟩

/-- An invitation whose invitee is bob and whose status is already declined;
carol will join with it. -/
def c8Inv : Invitation := ⟨50, 0, "r", 2, "bob", 1, "alice", .declined, 0⟩

def c8Db : Db := ⟨[uAlice, uBob, uCarol], [roomR], [rowAliceActive], [c8Inv], [], 60⟩

def c8St : AppState := ⟨c8Db, [(1, []), (3, [])]⟩

/-- Claim C7 witness fixtures: dave (id 4) was in room 9 from time 2 to
time 5; room 9 has messages at times 1, 3, 4, 6 and room 8 has one at
time 3. -/
def c7Rm : RoomMember := ⟨41, 9, "w", 4, "dave", 2, some 5, true, 0, 0⟩

def c7Msg (i t : Nat) : UserMessage := ⟨i, 9, "w", some 1, some "alice", "m", .text, .sent, t⟩

def c7Db : Db :=
  ⟨[uAlice], [], [c7Rm],  [],
   [c7Msg 70 1, c7Msg 71 3, c7Msg 72 4, c7Msg 73 6,
    ⟨74, 8, "x", some 1, some "alice", "m", .text, .sent, 3⟩], 80⟩

/-- Claim C6 witness fixture: one stored refresh-token digest. -/
def c6Db : AuthDb := ⟨[⟨5, 1, "oldhash", 10, 0⟩], 6⟩

/-- Claim C5 witness fixture: alice has an identity key, a signed pre-key
and one one-time pre-key. -/
def c5St : KeyDirState :=
  ⟨[uAlice], [⟨1, "ik", 9, 0⟩], [⟨7, 1, 3, "spk", "sig", 1⟩], [⟨1, 101, "o1", 0⟩]⟩

/-- Claim C1 witness fixture: user 1 holds keys 101 and 102; user 2 holds
key 50. -/
def c1Tbl : List OneTimePreKey := [⟨1, 101, "o1", 0⟩, ⟨1, 102, "o2", 0⟩, ⟨2, 50, "o3", 0⟩]

/-! # Theorems -/

/-! ## Mailbox lemmas -/

theorem find?_enqueue_self (l : List (Nat × List ServerResp)) (uid : Nat) (ev : ServerResp) :
    (l.map (fun e => if e.1 = uid then (e.1, e.2 ++ [ev]) else e)).find?
        (fun e => e.1 = uid)
      = (l.find? (fun e => e.1 = uid)).map (fun e => (e.1, e.2 ++ [ev])) := by
  induction l with
  | nil => rfl
  | cons a t ih =>
    by_cases ha : a.1 = uid
    · simp [List.find?, ha]
    · simp [List.find?, ha, ih]

theorem find?_enqueue_other (l : List (Nat × List ServerResp)) (uid v : Nat) (ev : ServerResp)
    (hne : v ≠ uid) :
    (l.map (fun e => if e.1 = uid then (e.1, e.2 ++ [ev]) else e)).find?
        (fun e => e.1 = v)
      = l.find? (fun e => e.1 = v) := by
  have huv : ¬ (uid = v) := fun h => hne h.symm
  induction l with
  | nil => rfl
  | cons a t ih =>
    by_cases ha : a.1 = uid
    · simp [List.find?, ha, huv, ih]
    · by_cases hv : a.1 = v
      · simp [List.find?, ha, hv, hne]
      · simp [List.find?, ha, hv, ih]

theorem mailbox_send_event_self (st : AppState) (uid : Nat) (ev : ServerResp)
    (q : List ServerResp) (h : mailbox st uid = some q) :
    mailbox (send_event st uid ev) uid = some (q ++ [ev]) := by
  unfold mailbox send_event
  unfold mailbox at h
  simp only [find?_enqueue_self]
  cases hf : st.channels.find? (fun e => e.1 = uid) with
  | none => simp [hf] at h
  | some e =>
    simp [hf] at h
    have he1 : e.1 = uid := by
      have h2 := List.find?_some hf
      simpa using h2
    simp [hf, he1, h]

theorem mailbox_send_event_other (st : AppState) (uid v : Nat) (ev : ServerResp)
    (hne : v ≠ uid) :
    mailbox (send_event st uid ev) v = mailbox st v := by
  unfold mailbox send_event
  simp only [find?_enqueue_other st.channels uid v ev hne]

theorem send_event_db (st : AppState) (uid : Nat) (ev : ServerResp) :
    (send_event st uid ev).db = st.db := rfl

theorem notifyRecipients_messages (uid rid : Nat) (ev : ServerResp) (l : List Nat)
    (st : AppState) :
    (notifyRecipients uid rid ev st l).db.messages = st.db.messages := by
  induction l generalizing st with
  | nil => rfl
  | cons mid rest ih =>
    by_cases h : mid = uid
    · simp [notifyRecipients, h, ih]
    · simp [notifyRecipients, h, ih, send_event, increment_unread_count]

/-! ## Claim C10 -/

/-- C10: a text frame that fails to parse as a tagged client request makes
the receive pump enqueue exactly one
`{"type":"error","errors":[{"code":"invalid_request_format"}]}` event into
the sender's own mailbox and continue with the remaining frames (the
connection is not closed); other mailboxes are untouched and binary frames
have no effect. -/
theorem claim10_malformed_frame (h : ClientReq → AppState → AppState) (uid : Nat)
    (st : AppState) (rest : List WsFrame) (q : List ServerResp) :
    recvPump h uid (.text none :: rest) st
      = recvPump h uid rest (send_error st uid .InvalidRequestFormat)
    ∧ recvPump h uid (.binary :: rest) st = recvPump h uid rest st
    ∧ (mailbox st uid = some q →
        mailbox (send_error st uid .InvalidRequestFormat) uid
          = some (q ++ [.Error ["invalid_request_format"]]))
    ∧ (∀ v r, v ≠ uid → mailbox st v = some r →
        mailbox (send_error st uid .InvalidRequestFormat) v = some r)
    ∧ renderErrorEvent [AppError.InvalidRequestFormat.apiCode]
        = "\x7b\"type\":\"error\",\"errors\":[\x7b\"code\":\"invalid_request_format\"\x7d]\x7d" := by
  refine ⟨rfl, rfl, ?_, ?_, rfl⟩
  · intro hq
    exact mailbox_send_event_self st uid _ q hq
  · intro v r hne hr
    rw [send_error, mailbox_send_event_other st uid v _ hne]
    exact hr

theorem claim10_malformed_frame_witness :
    mailbox (send_error ⟨⟨[], [], [], [], [], 0⟩, [(7, []), (8, [])]⟩ 7 .InvalidRequestFormat) 7
      = some ([] ++ [ServerResp.Error ["invalid_request_format"]]) :=
  (claim10_malformed_frame (fun _ s => s) 7 ⟨⟨[], [], [], [], [], 0⟩, [(7, []), (8, [])]⟩
    [] []).2.2.1 rfl

/-! ## Claim C9 -/

/-- C9: a multipart part larger than 50 MiB is rejected before any file row
is inserted, with HTTP status 400 — but with error code
`invalid_request_format`, not `file_limit_exceeded` (the source returns
`AppError::InvalidRequestFormat` on the size check and reserves
`AppError::ExceedingFileLimit` for a missing `encrypted_data` field). -/
theorem claim9_oversize_part (db : FileDb) (p : FilePart) (parts : List FilePart)
    (now : Nat) (hbig : MAX_FILE_SIZE < p.data.length) :
    upload_file db (p :: parts) now = (.error .InvalidRequestFormat, db)
    ∧ AppError.InvalidRequestFormat.httpStatus = 400
    ∧ AppError.InvalidRequestFormat.apiCode = "invalid_request_format"
    ∧ AppError.ExceedingFileLimit.apiCode = "file_limit_exceeded"
    ∧ AppError.InvalidRequestFormat.apiCode ≠ AppError.ExceedingFileLimit.apiCode := by
  refine ⟨?_, rfl, rfl, rfl, by decide⟩
  simp [upload_file, collectParts, hbig]

theorem claim9_oversize_part_witness :
    MAX_FILE_SIZE < (List.replicate 52428801 (0 : Nat)).length
    ∧ upload_file ⟨[], 0⟩ [⟨"encrypted_data", List.replicate 52428801 0⟩] 7
        = (.error .InvalidRequestFormat, ⟨[], 0⟩) := by
  have hbig : MAX_FILE_SIZE < (List.replicate 52428801 (0 : Nat)).length := by
    rw [List.length_replicate]
    norm_num [MAX_FILE_SIZE]
  exact ⟨hbig,
    (claim9_oversize_part ⟨[], 0⟩ ⟨"encrypted_data", List.replicate 52428801 0⟩ [] 7 hbig).1⟩

/-! ## Claim C4 -/

/-- C4: when the last active member leaves, the transaction returns the
room's invitations and deletes the room — but the fetch has no status
filter: here a `declined` invitation is returned. -/
theorem claim4_last_leave_returns_nonpending :
    (leave_room c4Db 0 1 9).1 = .ok (some ([c4DeclinedInv], roomR))
    ∧ c4DeclinedInv.status = .declined
    ∧ (leave_room c4Db 0 1 9).2.rooms = [] := by
  exact ⟨rfl, rfl, rfl⟩

/-! ## Claim C8 -/

/-- C8: joining with invitation 50 — whose invitee is bob (id 2, not the
actor carol, id 3) and whose status is already `declined` — nevertheless
inserts an active membership row for carol and emits `RoomJoined` to carol
and `MemberJoined` to the pre-join member alice: neither the invitee nor
the pending status is checked against the actor. -/
theorem claim8_join_ignores_invitee_and_status :
    get_invitation_by_id c8St.db 50 = some c8Inv
    ∧ c8Inv.invitee_id ≠ 3 ∧ c8Inv.status = .declined
    ∧ (∀ m ∈ c8St.db.members, m.user_id ≠ 3)
    ∧ (∃ m ∈ (join_room_response c8St 3 50 5).db.members,
        m.room_id = 0 ∧ m.user_id = 3 ∧ m.left_at = none)
    ∧ (∃ q, mailbox (join_room_response c8St 3 50 5) 3 = some q
        ∧ ServerResp.RoomJoined 50 0 "r" "alice" "alice" 0 5 ∈ q)
    ∧ (∃ q, mailbox (join_room_response c8St 3 50 5) 1 = some q
        ∧ ServerResp.MemberJoined 0 "r" "carol" 5 ∈ q) := by
  decide

/-! ## Claim C2 -/

/-- C2 counterexample: in `c2Db`, bob (id 2) has exactly one membership row
for room 0 and its `left_at` is set, yet `is_member` returns `true` — so
`is_member` is not equivalent to the existence of a row with `left_at`
null. -/
theorem claim2_counterexample :
    is_member c2Db 0 2 = true
    ∧ ∀ m ∈ c2Db.members, ¬ (m.room_id = 0 ∧ m.user_id = 2 ∧ m.left_at = none) := by
  decide

/-- C2 amended: `is_member` returns true iff there exists any `RoomMember`
row for `(room_id, user_id)`, regardless of `left_at`; consequently a user
whose only membership row has `left_at` set is still treated as a member,
and their `SendMessage` is not rejected with `NotRoomMember` — it inserts a
message authored by them. -/
theorem claim2_is_member_any_row :
    (∀ (db : Db) (rid uid : Nat),
      is_member db rid uid = true ↔ ∃ m ∈ db.members, m.room_id = rid ∧ m.user_id = uid)
    ∧ ∀ (st : AppState) (uid rid : Nat) (content : String) (mt : Option MessageType)
        (now : Nat) (room : Room) (u : UserRow),
        get_room_by_id st.db rid = some room →
        get_user_by_id st.db uid = some u →
        (∃ m ∈ st.db.members, m.room_id = rid ∧ m.user_id = uid) →
        ∃ msg, (send_message_response st uid rid content mt now).db.messages
            = st.db.messages ++ [msg] ∧ msg.author_id = some uid := by
  have hiff : ∀ (db : Db) (rid uid : Nat),
      is_member db rid uid = true ↔ ∃ m ∈ db.members, m.room_id = rid ∧ m.user_id = uid := by
    intro db rid uid
    simp [is_member, List.any_eq_true]
  refine ⟨hiff, ?_⟩
  intro st uid rid content mt now room u hroom huser hex
  have hmem : is_member st.db rid uid = true := (hiff st.db rid uid).mpr hex
  have huid : u.id = uid := by
    have h2 := List.find?_some huser
    simpa using h2
  simp only [send_message_response, hroom, hmem, huser, eq_self_iff_true, not_true,
    ite_false, if_false]
  refine ⟨(insert_message st.db rid room.name (some u.id) (some u.username) content
    (mt.getD .text) now).1, ?_, ?_⟩
  · rw [send_event_db, notifyRecipients_messages]
    rfl
  · simp [insert_message, huid]

theorem claim2_is_member_any_row_witness :
    ∃ msg, (send_message_response c2St 2 0 "hi" none 7).db.messages
        = c2St.db.messages ++ [msg] ∧ msg.author_id = some 2 :=
  claim2_is_member_any_row.2 c2St 2 0 "hi" none 7 roomR uBob rfl rfl
    ⟨rowBobLeft, by decide, by decide⟩

/-! ## Claim C7 helpers: the descending insertion sort is a permutation and
sorts by `created_at`. -/

theorem insertDescByCreated_perm (m : UserMessage) (l : List UserMessage) :
    (insertDescByCreated m l).Perm (m :: l) := by
  induction l with
  | nil => exact List.Perm.refl _
  | cons x xs ih =>
    by_cases h : x.created_at ≤ m.created_at
    · rw [insertDescByCreated, if_pos h]
    · rw [insertDescByCreated, if_neg h]
      exact List.Perm.trans (List.Perm.cons x ih) (List.Perm.swap m x xs)

theorem sortDescByCreated_perm (l : List UserMessage) : (sortDescByCreated l).Perm l := by
  induction l with
  | nil => exact List.Perm.refl _
  | cons x xs ih =>
    exact List.Perm.trans (insertDescByCreated_perm x (sortDescByCreated xs))
      (List.Perm.cons x ih)

theorem pairwise_insertDescByCreated (m : UserMessage) (l : List UserMessage)
    (h : l.Pairwise (fun a b => b.created_at ≤ a.created_at)) :
    (insertDescByCreated m l).Pairwise (fun a b => b.created_at ≤ a.created_at) := by
  induction l with
  | nil => simp [insertDescByCreated]
  | cons x xs ih =>
    rcases List.pairwise_cons.mp h with ⟨hx, hxs⟩
    by_cases hc : x.created_at ≤ m.created_at
    · rw [insertDescByCreated, if_pos hc]
      refine List.pairwise_cons.mpr ⟨?_, h⟩
      intro b hb
      rcases List.mem_cons.mp hb with rfl | hb2
      · exact hc
      · exact Nat.le_trans (hx b hb2) hc
    · rw [insertDescByCreated, if_neg hc]
      refine List.pairwise_cons.mpr ⟨?_, ih hxs⟩
      intro b hb
      have hmem : b = m ∨ b ∈ xs := by
        have h2 := (insertDescByCreated_perm m xs).mem_iff.mp hb
        simpa using h2
      rcases hmem with rfl | hb2
      · exact Nat.le_of_lt (Nat.lt_of_not_le hc)
      · exact hx b hb2

theorem pairwise_sortDescByCreated (l : List UserMessage) :
    (sortDescByCreated l).Pairwise (fun a b => b.created_at ≤ a.created_at) := by
  induction l with
  | nil => simp [sortDescByCreated]
  | cons x xs ih => exact pairwise_insertDescByCreated x _ ih

theorem flatMap_filter_singleton (l : List UserMessage) (c : UserMessage → Bool) :
    l.flatMap (fun m => if c m then [m] else []) = l.filter c := by
  induction l with
  | nil => rfl
  | cons a t ih =>
    by_cases h : c a
    · simp [List.flatMap_cons, h, ih, List.filter_cons]
    · simp [List.flatMap_cons, h, ih, List.filter_cons]

theorem filter_split {α : Type} (l : List α) (base extra : α → Bool) (r : α)
    (hl : l.filter base = [r]) :
    l.filter (fun x => base x && extra x) = if extra r then [r] else [] := by
  induction l with
  | nil => simp at hl
  | cons a t ih =>
    by_cases hb : base a
    · rw [List.filter_cons_of_pos hb] at hl
      obtain ⟨rfl, ht⟩ : a = r ∧ t.filter base = [] := by
        constructor
        · exact (List.cons.injEq _ _ _ _ ▸ hl).1
        · exact (List.cons.injEq _ _ _ _ ▸ hl).2
      have htx : t.filter (fun x => base x && extra x) = [] := by
        rw [List.filter_eq_nil_iff] at ht ⊢
        intro x hx
        simp [ht x hx]
      by_cases he : extra a
      · simp [List.filter_cons, hb, he, htx]
      · simp [List.filter_cons, hb, he, htx]
    · rw [List.filter_cons_of_neg hb] at hl
      rw [List.filter_cons_of_neg (by simp [hb])]
      exact ih hl

/-! ## Claim C7 -/

/-- C7: when the caller has exactly one membership row `rm` for the room,
`get_room_messages` returns exactly the reversal of the
`LIMIT`/`OFFSET` page of the newest-first ordering of the room's messages
within the window `[rm.joined_at, rm.left_at ?? ∞]`; every returned message
is a message of the room inside that window, and the page handed to the
caller is oldest-first. -/
theorem claim7_get_room_messages (db : Db) (rid uid lim off : Nat) (rm : RoomMember)
    (hrm : db.members.filter (fun x => x.room_id = rid ∧ x.user_id = uid) = [rm]) :
    get_room_messages db rid uid lim off
      = (((sortDescByCreated ((db.messages.filter (fun m => m.room_id = rid)).filter
            (fun m => withinLeft rm m && decide (rm.joined_at ≤ m.created_at)))).drop
          off).take lim).reverse
    ∧ (∀ m ∈ get_room_messages db rid uid lim off,
        m.room_id = rid ∧ rm.joined_at ≤ m.created_at ∧ withinLeft rm m = true)
    ∧ (get_room_messages db rid uid lim off).Pairwise
        (fun a b => a.created_at ≤ b.created_at) := by
  have hF : (db.messages.filter (fun m => m.room_id = rid)).flatMap (fun m =>
      (db.members.filter (fun x =>
        decide (x.room_id = m.room_id) && decide (x.user_id = uid) &&
        withinLeft x m && decide (x.joined_at ≤ m.created_at))).map (fun _ => m))
      = (db.messages.filter (fun m => m.room_id = rid)).filter
          (fun m => withinLeft rm m && decide (rm.joined_at ≤ m.created_at)) := by
    rw [← flatMap_filter_singleton (db.messages.filter (fun m => m.room_id = rid))
      (fun m => withinLeft rm m && decide (rm.joined_at ≤ m.created_at))]
    apply List.flatMap_congr
    intro m hmem
    have hm : m.room_id = rid := by
      have h2 := List.mem_filter.mp hmem
      simpa using h2.2
    have hcong : db.members.filter (fun x =>
        decide (x.room_id = m.room_id) && decide (x.user_id = uid) &&
        withinLeft x m && decide (x.joined_at ≤ m.created_at))
        = db.members.filter (fun x =>
            decide (x.room_id = rid ∧ x.user_id = uid) &&
            (withinLeft x m && decide (x.joined_at ≤ m.created_at))) := by
      apply List.filter_congr
      intro x hx
      simp [hm, Bool.and_assoc]
    rw [hcong, filter_split db.members _ _ rm hrm]
    by_cases hc : (withinLeft rm m && decide (rm.joined_at ≤ m.created_at)) = true
    · simp [hc]
    · simp [hc]
  have hmain : get_room_messages db rid uid lim off
      = (((sortDescByCreated ((db.messages.filter (fun m => m.room_id = rid)).filter
            (fun m => withinLeft rm m && decide (rm.joined_at ≤ m.created_at)))).drop
          off).take lim).reverse := by
    simp only [get_room_messages]
    rw [hF]
  refine ⟨hmain, ?_, ?_⟩
  · intro m hm_in
    rw [hmain] at hm_in
    have h1 : m ∈ ((sortDescByCreated ((db.messages.filter (fun m => m.room_id = rid)).filter
        (fun m => withinLeft rm m && decide (rm.joined_at ≤ m.created_at)))).drop off) := by
      have h2 := List.mem_reverse.mp hm_in
      exact (List.take_sublist _ _).mem h2
    have h3 := (List.drop_sublist _ _).mem h1
    have h4 := (sortDescByCreated_perm _).mem_iff.mp h3
    have h5 := List.mem_filter.mp h4
    have h6 := List.mem_filter.mp h5.1
    refine ⟨by simpa using h6.2, ?_, ?_⟩
    · have h7 := h5.2
      simp only [Bool.and_eq_true, decide_eq_true_eq] at h7
      exact h7.2
    · have h7 := h5.2
      simp only [Bool.and_eq_true] at h7
      exact h7.1
  · rw [hmain]
    rw [List.pairwise_reverse]
    exact ((pairwise_sortDescByCreated _).sublist (List.drop_sublist _ _)).sublist
      (List.take_sublist _ _)

theorem claim7_get_room_messages_witness :
    c7Db.members.filter (fun x => x.room_id = 9 ∧ x.user_id = 4) = [c7Rm]
    ∧ (∀ m ∈ get_room_messages c7Db 9 4 2 1,
        m.room_id = 9 ∧ c7Rm.joined_at ≤ m.created_at ∧ withinLeft c7Rm m = true) :=
  ⟨by decide, (claim7_get_room_messages c7Db 9 4 2 1 c7Rm (by decide)).2.1⟩

/-! ## Claim C6 -/

/-- C6: refresh tokens are single-use.  With a stored record for the
submitted digest: if it is expired the call fails with `SessionExpired` and
changes nothing; otherwise the call succeeds, deletes the record and
appends a fresh one, so a second call with the same digest (one success,
one failure) yields `SessionExpired`. -/
theorem claim6_refresh_token_single_use (db : AuthDb) (hsh newh newh2 : String)
    (now exp1 now2 exp2 : Nat) (tok : RefreshTokenRow)
    (hfind : db.tokens.find? (fun t => t.token_hash = hsh) = some tok) :
    (tok.expires_at < now → refresh_token db hsh now exp1 newh = (.error .SessionExpired, db))
    ∧ (¬ tok.expires_at < now →
        (refresh_token db hsh now exp1 newh).1 = .ok ()
        ∧ (refresh_token db hsh now exp1 newh).2.tokens
            = db.tokens.filter (fun t => ¬ t.token_hash = hsh) ++
              [⟨db.nextId, tok.user_id, newh, now + exp1, now⟩]
        ∧ (newh ≠ hsh →
            (refresh_token (refresh_token db hsh now exp1 newh).2 hsh now2 exp2 newh2).1
              = .error .SessionExpired)) := by
  constructor
  · intro hexp
    simp only [refresh_token, hfind]
    rw [if_pos hexp]
  · intro hexp
    refine ⟨?_, ?_, ?_⟩
    · simp only [refresh_token, hfind]
      rw [if_neg hexp]
    · simp only [refresh_token, hfind]
      rw [if_neg hexp]
    · intro hne
      have hnone : ((refresh_token db hsh now exp1 newh).2.tokens.find?
          (fun t => t.token_hash = hsh)) = none := by
        simp only [refresh_token, hfind]
        rw [if_neg hexp]
        rw [List.find?_eq_none]
        intro x hx
        rcases List.mem_append.mp hx with hx1 | hx2
        · have h2 := (List.mem_filter.mp hx1).2
          simpa using h2
        · have h2 : x = ⟨db.nextId, tok.user_id, newh, now + exp1, now⟩ := by
            simpa using hx2
          simp [h2, hne]
      generalize hg : (refresh_token db hsh now exp1 newh).2 = db1 at hnone ⊢
      simp only [refresh_token, hnone]

theorem claim6_refresh_token_single_use_witness :
    (refresh_token (refresh_token c6Db "oldhash" 3 7 "newhash").2 "oldhash" 4 9 "n2").1
      = .error .SessionExpired :=
  ((claim6_refresh_token_single_use c6Db "oldhash" "newhash" "n2" 3 7 4 9
      ⟨5, 1, "oldhash", 10, 0⟩ rfl).2 (by decide)).2.2 (by decide)

/-! ## Claim C5 -/

/-- Helper: the lowest-key selection is `none` when the user has no
one-time pre-key rows. -/
theorem lowest_eq_none_of_empty (uid : Nat) (tbl : List OneTimePreKey)
    (h : userOtks uid tbl = []) : lowestOneTimePreKey uid tbl = none := by
  induction tbl with
  | nil => rfl
  | cons r rs ih =>
    by_cases hu : r.user_id = uid
    · rw [userOtks, List.filter_cons_of_pos (by simpa using hu)] at h
      exact absurd h (by simp)
    · rw [userOtks, List.filter_cons_of_neg (by simpa using hu)] at h
      rw [lowestOneTimePreKey, ih h]
      simp [hu]

/-- Helper: conversely, a `none` selection means the user has no rows. -/
theorem empty_of_lowest_eq_none (uid : Nat) (tbl : List OneTimePreKey)
    (h : lowestOneTimePreKey uid tbl = none) : userOtks uid tbl = [] := by
  induction tbl with
  | nil => rfl
  | cons r rs ih =>
    rw [lowestOneTimePreKey] at h
    cases hrec : lowestOneTimePreKey uid rs with
    | none =>
      simp only [hrec] at h
      by_cases hu : r.user_id = uid
      · rw [if_pos hu] at h
        exact absurd h (by simp)
      · rw [if_neg hu] at h
        rw [userOtks, List.filter_cons_of_neg (by simpa using hu)]
        exact ih hrec
    | some m =>
      simp only [hrec] at h
      by_cases hc : r.user_id = uid ∧ r.key_id < m.key_id
      · rw [if_pos hc] at h
        exact absurd h (by simp)
      · rw [if_neg hc] at h
        exact absurd h (by simp)

theorem lowestOneTimePreKey_none_iff (uid : Nat) (tbl : List OneTimePreKey) :
    lowestOneTimePreKey uid tbl = none ↔ userOtks uid tbl = [] :=
  ⟨empty_of_lowest_eq_none uid tbl, lowest_eq_none_of_empty uid tbl⟩

/-- C5: a bundle fetch for an existing user fails with `UserHasNoKeys` —
consuming nothing — exactly when the identity key or the signed pre-key is
missing; with both present it succeeds, carrying them plus the consumed
one-time key, which is `none` exactly when the user has no one-time keys
left (their absence never fails the call). -/
theorem claim5_get_prekey_bundle (st : KeyDirState) (uname : String) (u : UserRow)
    (hu : st.users.find? (fun x => x.username = uname) = some u) :
    ((get_identity_key u.id st.identity_keys = none ∨
        latestSignedPreKey u.id st.signed_prekeys = none) →
      get_prekey_bundle st uname = (.error .UserHasNoKeys, st))
    ∧ (∀ ik sk, get_identity_key u.id st.identity_keys = some ik →
        latestSignedPreKey u.id st.signed_prekeys = some sk →
        ∃ b : PreKeyBundleResp, get_prekey_bundle st uname
            = (.ok b,
               { st with
                 one_time_prekeys := (consume_one_time_prekey u.id st.one_time_prekeys).2 })
          ∧ b.identity_key = ik.identity_key ∧ b.registration_id = ik.registration_id
          ∧ b.signed_key_id = sk.key_id ∧ b.signed_public_key = sk.public_key
          ∧ b.signed_signature = sk.signature
          ∧ b.one_time_prekey = (consume_one_time_prekey u.id st.one_time_prekeys).1.map
              (fun k => (k.key_id, k.public_key))
          ∧ (userOtks u.id st.one_time_prekeys = [] → b.one_time_prekey = none
              ∧ (consume_one_time_prekey u.id st.one_time_prekeys).2 = st.one_time_prekeys)
          ∧ (userOtks u.id st.one_time_prekeys ≠ [] →
              ∃ k : OneTimePreKey, b.one_time_prekey = some (k.key_id, k.public_key))) := by
  constructor
  · intro hmiss
    rcases hmiss with hid | hsk
    · simp only [get_prekey_bundle, hu, hid]
    · cases hid : get_identity_key u.id st.identity_keys with
      | none => simp only [get_prekey_bundle, hu, hid]
      | some ik => simp only [get_prekey_bundle, hu, hid, hsk]
  · intro ik sk hid hsk
    refine ⟨{ identity_key := ik.identity_key, registration_id := ik.registration_id,
              signed_key_id := sk.key_id, signed_public_key := sk.public_key,
              signed_signature := sk.signature,
              one_time_prekey := (consume_one_time_prekey u.id st.one_time_prekeys).1.map
                (fun k => (k.key_id, k.public_key)) },
       ?_, rfl, rfl, rfl, rfl, rfl, rfl, ?_, ?_⟩
    · simp only [get_prekey_bundle, hu, hid, hsk]
    · intro hempty
      have hnone : lowestOneTimePreKey u.id st.one_time_prekeys = none :=
        lowest_eq_none_of_empty u.id st.one_time_prekeys hempty
      rw [consume_one_time_prekey, hnone]
      exact ⟨rfl, rfl⟩
    · intro hne
      cases hlow : lowestOneTimePreKey u.id st.one_time_prekeys with
      | none => exact absurd (empty_of_lowest_eq_none _ _ hlow) hne
      | some k =>
        refine ⟨k, ?_⟩
        rw [consume_one_time_prekey, hlow]
        rfl

theorem claim5_get_prekey_bundle_witness :
    ∃ b : PreKeyBundleResp, get_prekey_bundle c5St "alice"
        = (.ok b,
           { c5St with
             one_time_prekeys := (consume_one_time_prekey 1 c5St.one_time_prekeys).2 })
      ∧ b.identity_key = "ik" ∧ b.registration_id = (9 : Int)
      ∧ b.signed_key_id = (3 : Int) ∧ b.signed_public_key = "spk"
      ∧ b.signed_signature = "sig"
      ∧ b.one_time_prekey = (consume_one_time_prekey 1 c5St.one_time_prekeys).1.map
          (fun k => (k.key_id, k.public_key)) := by
  have h := (claim5_get_prekey_bundle c5St "alice" uAlice rfl).2
    ⟨1, "ik", 9, 0⟩ ⟨7, 1, 3, "spk", "sig", 1⟩ rfl rfl
  rcases h with ⟨b, h1, h2, h3, h4, h5, h6, h7, _⟩
  exact ⟨b, h1, h2, h3, h4, h5, h6, h7⟩

/-! ## Claim C1 helpers -/

/-- The lowest-key selection returns a row of the user with minimal
`key_id`. -/
theorem lowest_spec (uid : Nat) (tbl : List OneTimePreKey) (r : OneTimePreKey)
    (h : lowestOneTimePreKey uid tbl = some r) :
    r ∈ tbl ∧ r.user_id = uid ∧ ∀ q ∈ tbl, q.user_id = uid → r.key_id ≤ q.key_id := by
  induction tbl generalizing r with
  | nil => simp [lowestOneTimePreKey] at h
  | cons a t ih =>
    cases hrec : lowestOneTimePreKey uid t with
    | none =>
      simp only [lowestOneTimePreKey, hrec] at h
      by_cases hu : a.user_id = uid
      · rw [if_pos hu] at h
        obtain rfl : a = r := by simpa using h
        refine ⟨List.mem_cons_self a t, hu, ?_⟩
        intro q hq hqu
        rcases List.mem_cons.mp hq with rfl | hq2
        · exact le_refl _
        · have hempty := empty_of_lowest_eq_none uid t hrec
          have hqmem : q ∈ userOtks uid t :=
            List.mem_filter.mpr ⟨hq2, by simpa using hqu⟩
          rw [hempty] at hqmem
          simp at hqmem
      · rw [if_neg hu] at h
        exact absurd h (by simp)
    | some m =>
      simp only [lowestOneTimePreKey, hrec] at h
      by_cases hc : a.user_id = uid ∧ a.key_id < m.key_id
      · rw [if_pos hc] at h
        obtain rfl : a = r := by simpa using h
        obtain ⟨hmm, hmu, hmmin⟩ := ih m hrec
        refine ⟨List.mem_cons_self a t, hc.1, ?_⟩
        intro q hq hqu
        rcases List.mem_cons.mp hq with rfl | hq2
        · exact le_refl _
        · exact le_trans (le_of_lt hc.2) (hmmin q hq2 hqu)
      · rw [if_neg hc] at h
        obtain rfl : m = r := by simpa using h
        obtain ⟨hmm, hmu, hmmin⟩ := ih m hrec
        refine ⟨List.mem_cons_of_mem a hmm, hmu, ?_⟩
        intro q hq hqu
        rcases List.mem_cons.mp hq with rfl | hq2
        · by_cases hk : m.key_id ≤ q.key_id
          · exact hk
          · exact absurd ⟨hqu, lt_of_not_le hk⟩ hc
        · exact hmmin q hq2 hqu

/-- A successful consume returns the user's minimal row and deletes exactly
the rows with that `key_id`. -/
theorem consume_some_spec (uid : Nat) (tbl : List OneTimePreKey) (r : OneTimePreKey)
    (h : (consume_one_time_prekey uid tbl).1 = some r) :
    r ∈ tbl ∧ r.user_id = uid ∧ (∀ q ∈ tbl, q.user_id = uid → r.key_id ≤ q.key_id)
    ∧ (consume_one_time_prekey uid tbl).2
        = tbl.filter (fun q => ¬ (q.user_id = uid ∧ q.key_id = r.key_id)) := by
  cases hlow : lowestOneTimePreKey uid tbl with
  | none => simp [consume_one_time_prekey, hlow] at h
  | some r0 =>
    simp only [consume_one_time_prekey, hlow] at h ⊢
    obtain rfl : r0 = r := by simpa using h
    obtain ⟨h1, h2, h3⟩ := lowest_spec uid tbl r0 hlow
    exact ⟨h1, h2, h3, rfl⟩

theorem consume_none_iff (uid : Nat) (tbl : List OneTimePreKey) :
    (consume_one_time_prekey uid tbl).1 = none ↔ userOtks uid tbl = [] := by
  cases hlow : lowestOneTimePreKey uid tbl with
  | none =>
    simp [consume_one_time_prekey, hlow, empty_of_lowest_eq_none uid tbl hlow]
  | some r =>
    simp only [consume_one_time_prekey, hlow]
    constructor
    · intro hcontra
      exact absurd hcontra (by simp)
    · intro hempty
      have h2 := lowest_eq_none_of_empty uid tbl hempty
      rw [hlow] at h2
      exact absurd h2 (by simp)

theorem consume_none_snd (uid : Nat) (tbl : List OneTimePreKey)
    (h : (consume_one_time_prekey uid tbl).1 = none) :
    (consume_one_time_prekey uid tbl).2 = tbl := by
  cases hlow : lowestOneTimePreKey uid tbl with
  | none => simp [consume_one_time_prekey, hlow]
  | some r => simp [consume_one_time_prekey, hlow] at h

/-- The user's rows that survive a consume are those with a different
`key_id`. -/
theorem userOtks_consume (uid : Nat) (tbl : List OneTimePreKey) (r : OneTimePreKey)
    (h : (consume_one_time_prekey uid tbl).1 = some r) :
    userOtks uid (consume_one_time_prekey uid tbl).2
      = (userOtks uid tbl).filter (fun q => ¬ q.key_id = r.key_id) := by
  obtain ⟨_, _, _, h4⟩ := consume_some_spec uid tbl r h
  rw [h4, userOtks, userOtks, List.filter_filter, List.filter_filter]
  apply List.filter_congr
  intro x hx
  by_cases hu : x.user_id = uid
  · simp [hu]
  · simp [hu]

theorem length_filter_ne_key (l : List OneTimePreKey) (r : OneTimePreKey)
    (hnd : (l.map (fun x => x.key_id)).Nodup) (hr : r ∈ l) :
    (l.filter (fun q => ¬ q.key_id = r.key_id)).length = l.length - 1 := by
  induction l with
  | nil => simp at hr
  | cons a t ih =>
    rw [List.map_cons, List.nodup_cons] at hnd
    by_cases ha : a.key_id = r.key_id
    · have ht : t.filter (fun q => ¬ q.key_id = r.key_id) = t := by
        rw [List.filter_eq_self]
        intro x hx
        have hxa : ¬ x.key_id = a.key_id := by
          intro he
          exact hnd.1 (he ▸ List.mem_map_of_mem (fun y => y.key_id) hx)
        simp [ha ▸ hxa]
      rw [List.filter_cons_of_neg (by simp [ha]), ht]
      simp
    · have hrt : r ∈ t := by
        rcases List.mem_cons.mp hr with rfl | h2
        · exact absurd rfl ha
        · exact h2
      rw [List.filter_cons_of_pos (by simp [ha]), List.length_cons, ih hnd.2 hrt]
      have hpos : 0 < t.length := List.length_pos.mpr (List.ne_nil_of_mem hrt)
      simp only [List.length_cons]
      omega

/-- Every one-time key of the user left after a successful consume has a
strictly larger `key_id` than the consumed one. -/
theorem consume_lt_remaining (uid : Nat) (tbl : List OneTimePreKey) (r : OneTimePreKey)
    (h : (consume_one_time_prekey uid tbl).1 = some r) :
    ∀ q ∈ userOtks uid (consume_one_time_prekey uid tbl).2, r.key_id < q.key_id := by
  intro q hq
  rw [userOtks_consume uid tbl r h] at hq
  have h5 := List.mem_filter.mp hq
  have h6 := List.mem_filter.mp h5.1
  obtain ⟨_, _, hmin, _⟩ := consume_some_spec uid tbl r h
  have hqu : q.user_id = uid := by simpa using h6.2
  have hle := hmin q h6.1 hqu
  have hne : ¬ q.key_id = r.key_id := by simpa using h5.2
  exact lt_of_le_of_ne hle (fun he => hne he.symm)

theorem userOtks_consume_subset (uid : Nat) (tbl : List OneTimePreKey) :
    ∀ x ∈ userOtks uid (consume_one_time_prekey uid tbl).2, x ∈ userOtks uid tbl := by
  cases h : (consume_one_time_prekey uid tbl).1 with
  | none =>
    rw [consume_none_snd uid tbl h]
    exact fun x hx => hx
  | some r =>
    rw [userOtks_consume uid tbl r h]
    intro x hx
    exact (List.mem_filter.mp hx).1

theorem nodup_consume (uid : Nat) (tbl : List OneTimePreKey)
    (hnd : ((userOtks uid tbl).map (fun x => x.key_id)).Nodup) :
    ((userOtks uid (consume_one_time_prekey uid tbl).2).map (fun x => x.key_id)).Nodup := by
  cases h : (consume_one_time_prekey uid tbl).1 with
  | none =>
    rw [consume_none_snd uid tbl h]
    exact hnd
  | some r =>
    rw [userOtks_consume uid tbl r h]
    exact hnd.sublist (List.Sublist.map _ (List.filter_sublist _))

theorem consume_count_step (uid : Nat) (tbl : List OneTimePreKey) (r : OneTimePreKey)
    (h : (consume_one_time_prekey uid tbl).1 = some r)
    (hnd : ((userOtks uid tbl).map (fun x => x.key_id)).Nodup) :
    (userOtks uid (consume_one_time_prekey uid tbl).2).length
      = (userOtks uid tbl).length - 1 := by
  rw [userOtks_consume uid tbl r h]
  apply length_filter_ne_key _ r hnd
  obtain ⟨h1, h2, _, _⟩ := consume_some_spec uid tbl r h
  exact List.mem_filter.mpr ⟨h1, by simpa using h2⟩

/-- Sequential consumes: N calls produce N results, `min N K` of them are
keys (K the user's stock, whose `key_id`s the database keeps unique), every
returned key comes from the user's stock, and the returned `key_id`s
strictly increase — so no key is ever handed out twice. -/
theorem consumeN_spec (uid : Nat) : ∀ (n : Nat) (tbl : List OneTimePreKey),
    ((userOtks uid tbl).map (fun x => x.key_id)).Nodup →
    ((consumeN uid n tbl).1.length = n)
    ∧ (((consumeN uid n tbl).1.filterMap id).length = min n (userOtks uid tbl).length)
    ∧ (∀ r ∈ (consumeN uid n tbl).1.filterMap id, r ∈ userOtks uid tbl)
    ∧ ((consumeN uid n tbl).1.filterMap id).Pairwise (fun a b => a.key_id < b.key_id) := by
  intro n
  induction n with
  | zero =>
    intro tbl hnd
    simp [consumeN]
  | succ n ih =>
    intro tbl hnd
    cases hr : (consume_one_time_prekey uid tbl).1 with
    | none =>
      have hsnd := consume_none_snd uid tbl hr
      have hempty := (consume_none_iff uid tbl).mp hr
      obtain ⟨ih1, ih2, ih3, ih4⟩ := ih tbl hnd
      refine ⟨?_, ?_, ?_, ?_⟩
      · simp [consumeN, hr, hsnd, ih1]
      · simp only [consumeN, hr, hsnd, List.filterMap_cons]
        simp only [id]
        rw [ih2, hempty]
        simp
      · simp only [consumeN, hr, hsnd, List.filterMap_cons]
        simpa [id] using ih3
      · simp only [consumeN, hr, hsnd, List.filterMap_cons]
        simpa [id] using ih4
    | some r =>
      have hstep := consume_count_step uid tbl r hr hnd
      have hnd2 := nodup_consume uid tbl hnd
      obtain ⟨ih1, ih2, ih3, ih4⟩ := ih (consume_one_time_prekey uid tbl).2 hnd2
      have hsub := userOtks_consume_subset uid tbl
      have hbound := consume_lt_remaining uid tbl r hr
      obtain ⟨hrmem, hru, hrmin, _⟩ := consume_some_spec uid tbl r hr
      have hrmemO : r ∈ userOtks uid tbl :=
        List.mem_filter.mpr ⟨hrmem, by simpa using hru⟩
      have hpos : 0 < (userOtks uid tbl).length :=
        List.length_pos.mpr (List.ne_nil_of_mem hrmemO)
      refine ⟨?_, ?_, ?_, ?_⟩
      · simp [consumeN, hr, ih1]
      · simp only [consumeN, hr, List.filterMap_cons]
        simp only [id, List.length_cons]
        rw [ih2, hstep]
        omega
      · simp only [consumeN, hr, List.filterMap_cons]
        simp only [id]
        intro s hs
        rcases List.mem_cons.mp hs with rfl | hs2
        · exact hrmemO
        · exact hsub s (ih3 s hs2)
      · simp only [consumeN, hr, List.filterMap_cons]
        simp only [id]
        refine List.pairwise_cons.mpr ⟨?_, ih4⟩
        intro s hs
        exact hbound s (ih3 s hs)

/-! ## Claim C1 -/

/-- C1: `consume_one_time_prekey` is one atomic delete-returning statement;
modelling a race of N callers as its serialization (justified by
`FOR UPDATE SKIP LOCKED`), a single call returns `none` exactly when the
user has no keys, otherwise removes and returns the user's stored key with
the lowest `key_id`; across N sequential calls against K stored keys
exactly `min N K` calls receive keys, all with distinct `key_id`s (no key
is returned twice), and the rest receive `none`. -/
theorem claim1_consume_one_time_prekey (uid n : Nat) (tbl : List OneTimePreKey)
    (hnd : ((userOtks uid tbl).map (fun x => x.key_id)).Nodup) :
    ((consume_one_time_prekey uid tbl).1 = none ↔ userOtks uid tbl = [])
    ∧ (∀ r, (consume_one_time_prekey uid tbl).1 = some r →
        r ∈ tbl ∧ r.user_id = uid ∧ (∀ q ∈ tbl, q.user_id = uid → r.key_id ≤ q.key_id)
        ∧ (consume_one_time_prekey uid tbl).2
            = tbl.filter (fun q => ¬ (q.user_id = uid ∧ q.key_id = r.key_id)))
    ∧ (consumeN uid n tbl).1.length = n
    ∧ ((consumeN uid n tbl).1.filterMap id).length = min n (userOtks uid tbl).length
    ∧ ((consumeN uid n tbl).1.filterMap id).Pairwise (fun a b => a.key_id ≠ b.key_id) := by
  obtain ⟨h1, h2, _h3, h4⟩ := consumeN_spec uid n tbl hnd
  exact ⟨consume_none_iff uid tbl, consume_some_spec uid tbl, h1, h2,
    h4.imp (fun h => ne_of_lt h)⟩

theorem claim1_consume_one_time_prekey_witness :
    ((userOtks 1 c1Tbl).map (fun x => x.key_id)).Nodup
    ∧ ((consumeN 1 3 c1Tbl).1.filterMap id).length = min 3 (userOtks 1 c1Tbl).length :=
  ⟨by decide, (claim1_consume_one_time_prekey 1 3 c1Tbl (by decide)).2.2.2.1⟩

/-! ## Claim C3 helpers -/

theorem rooms_unique {l : List Room} (h : l.Pairwise (fun a b => a.id ≠ b.id))
    {a b : Room} (ha : a ∈ l) (hb : b ∈ l) (he : a.id = b.id) : a = b := by
  induction l with
  | nil => simp at ha
  | cons x t ih =>
    rcases List.pairwise_cons.mp h with ⟨hx, ht⟩
    rcases List.mem_cons.mp ha with rfl | ha2
    · rcases List.mem_cons.mp hb with rfl | hb2
      · rfl
      · exact absurd he (hx b hb2)
    · rcases List.mem_cons.mp hb with rfl | hb2
      · exact absurd he.symm (hx a ha2)
      · exact ih ht ha2 hb2

theorem rooms_filter_of_unique {l : List Room} (h : l.Pairwise (fun a b => a.id ≠ b.id))
    {r : Room} (hr : r ∈ l) : l.filter (fun x => x.id = r.id) = [r] := by
  induction l with
  | nil => simp at hr
  | cons x t ih =>
    rcases List.pairwise_cons.mp h with ⟨hx, ht⟩
    rcases List.mem_cons.mp hr with rfl | hr2
    · rw [List.filter_cons_of_pos (by simp)]
      have hnone : t.filter (fun x => x.id = r.id) = [] := by
        rw [List.filter_eq_nil_iff]
        intro a ha
        simpa using (hx a ha).symm
      rw [hnone]
    · have hne : ¬ x.id = r.id := hx r hr2
      rw [List.filter_cons_of_neg (by simpa using hne)]
      exact ih ht hr2

/-- Invariance of `DbInv` under a member-row rewrite that keeps `room_id`
and `user_id` and never resurrects a left row, given that every room's
admin still has an active rewritten row. -/
theorem dbInv_of_map (db : Db) (f : RoomMember → RoomMember)
    (hproj : ∀ m, (f m).room_id = m.room_id ∧ (f m).user_id = m.user_id ∧
        ((f m).left_at = none → m.left_at = none))
    (h : DbInv db)
    (hadmin : ∀ r ∈ db.rooms, ∃ m ∈ db.members.map f,
        m.room_id = r.id ∧ m.user_id = r.admin_id ∧ m.left_at = none) :
    DbInv { db with members := db.members.map f } := by
  obtain ⟨h1, h2, h3, h4, h5⟩ := h
  refine ⟨h1, hadmin, ?_, h4, ?_⟩
  · rw [List.pairwise_map]
    refine h3.imp ?_
    intro a b hab
    rw [(hproj a).1, (hproj b).1, (hproj a).2.1, (hproj b).2.1]
    intro he hla hlb
    exact hab he ((hproj a).2.2 hla) ((hproj b).2.2 hlb)
  · intro m hm
    obtain ⟨m0, hm0, rfl⟩ := List.mem_map.mp hm
    rw [(hproj m0).1]
    exact h5 m0 hm0

/-- Invariance of `DbInv` under deleting member rows, given that every
room's admin row survives. -/
theorem dbInv_of_filter (db : Db) (p : RoomMember → Bool)
    (h : DbInv db)
    (hadmin : ∀ r ∈ db.rooms, ∃ m ∈ db.members.filter p,
        m.room_id = r.id ∧ m.user_id = r.admin_id ∧ m.left_at = none) :
    DbInv { db with members := db.members.filter p } := by
  obtain ⟨h1, h2, h3, h4, h5⟩ := h
  exact ⟨h1, hadmin, h3.filter p, h4, fun m hm => h5 m (List.mem_of_mem_filter hm)⟩

/-- Invariance of `DbInv` under deleting rooms. -/
theorem dbInv_rooms_filter (db : Db) (p : Room → Bool) (h : DbInv db) :
    DbInv { db with rooms := db.rooms.filter p } := by
  obtain ⟨h1, h2, h3, h4, h5⟩ := h
  exact ⟨h1.filter p, fun r hr => h2 r (List.mem_of_mem_filter hr), h3,
    fun r hr => h4 r (List.mem_of_mem_filter hr), h5⟩

theorem dbInv_insert_message (db : Db) (rid : Nat) (rname : String) (aid : Option Nat)
    (auname : Option String) (content : String) (mtype : MessageType) (now : Nat)
    (h : DbInv db) :
    DbInv (insert_message db rid rname aid auname content mtype now).2 := by
  obtain ⟨h1, h2, h3, h4, h5⟩ := h
  exact ⟨h1, h2, h3, fun r hr => Nat.lt_succ_of_lt (h4 r hr),
    fun m hm => Nat.lt_succ_of_lt (h5 m hm)⟩

theorem foldl_send_event_db (l : List RoomMember) (ev : ServerResp) (st : AppState) :
    (l.foldl (fun s m => send_event s m.user_id ev) st).db = st.db := by
  induction l generalizing st with
  | nil => rfl
  | cons a t ih =>
    rw [List.foldl_cons, ih]
    rfl

theorem create_and_broadcast_db (st : AppState) (rid : Nat) (rname : String)
    (c : SystemMessageContent) (now : Nat) :
    (create_and_broadcast_system_message st rid rname c now).2.db
      = (insert_message st.db rid rname none none (sysContentJson c) .system now).2 := by
  rw [create_and_broadcast_system_message]
  exact foldl_send_event_db _ _ _

theorem dbInv_create_room (db : Db) (name : String) (cid : Nat) (cname : String) (now : Nat)
    (h : DbInv db) : DbInv (create_room db name cid cname now).2 := by
  obtain ⟨h1, h2, h3, h4, h5⟩ := h
  simp only [create_room]
  refine ⟨?_, ?_, ?_, ?_, ?_⟩
  · simp only []
    rw [List.pairwise_append]
    refine ⟨h1, List.pairwise_singleton _ _, ?_⟩
    intro a ha b hb
    rw [List.mem_singleton] at hb
    subst hb
    exact Nat.ne_of_lt (h4 a ha)
  · simp only []
    intro r hr
    rcases List.mem_append.mp hr with hr1 | hr2
    · obtain ⟨m, hm, hm2⟩ := h2 r hr1
      exact ⟨m, List.mem_append_left _ hm, hm2⟩
    · rw [List.mem_singleton] at hr2
      subst hr2
      exact ⟨_, List.mem_append_right _ (List.mem_singleton_self _), rfl, rfl, rfl⟩
  · simp only []
    rw [List.pairwise_append]
    refine ⟨h3, List.pairwise_singleton _ _, ?_⟩
    intro a ha b hb
    rw [List.mem_singleton] at hb
    subst hb
    intro he
    exact absurd he (Nat.ne_of_lt (h5 a ha))
  · simp only []
    intro r hr
    rcases List.mem_append.mp hr with hr1 | hr2
    · exact Nat.lt_of_lt_of_le (h4 r hr1) (Nat.le_add_right _ 2)
    · rw [List.mem_singleton] at hr2
      subst hr2
      show db.nextId < db.nextId + 2
      omega
  · simp only []
    intro m hm
    rcases List.mem_append.mp hm with hm1 | hm2
    · exact Nat.lt_of_lt_of_le (h5 m hm1) (Nat.le_add_right _ 2)
    · rw [List.mem_singleton] at hm2
      subst hm2
      show db.nextId < db.nextId + 2
      omega

theorem dbInv_consume_join (db : Db) (rid : Nat) (rname : String) (uid : Nat)
    (uname : String) (ja now : Nat) (h : DbInv db) (hrid : rid < db.nextId)
    (hnomem : ∀ m ∈ db.members, m.room_id = rid → m.user_id ≠ uid) :
    DbInv (consume_invitations_and_join_room db rid rname uid uname ja now) := by
  obtain ⟨h1, h2, h3, h4, h5⟩ := h
  rw [consume_invitations_and_join_room]
  by_cases hact : (db.members.any (fun m =>
      m.room_id = rid ∧ m.user_id = uid ∧ m.left_at = none)) = true
  · rw [if_pos (by simpa using hact)]
    exact ⟨h1, h2, h3, h4, h5⟩
  · rw [if_neg (by simpa using hact)]
    refine ⟨h1, ?_, ?_, ?_, ?_⟩
    · simp only []
      intro r hr
      obtain ⟨m, hm, hm2⟩ := h2 r hr
      exact ⟨m, List.mem_append_left _ hm, hm2⟩
    · simp only []
      rw [List.pairwise_append]
      refine ⟨h3, List.pairwise_singleton _ _, ?_⟩
      intro a ha b hb
      rw [List.mem_singleton] at hb
      subst hb
      intro he _ _
      exact hnomem a ha he
    · simp only []
      intro r hr
      exact Nat.lt_succ_of_lt (h4 r hr)
    · simp only []
      intro m hm
      rcases List.mem_append.mp hm with hm1 | hm2
      · exact Nat.lt_succ_of_lt (h5 m hm1)
      · rw [List.mem_singleton] at hm2
        subst hm2
        exact Nat.lt_succ_of_lt hrid

theorem dbInv_create_room_response (st : AppState) (uid : Nat) (name : String) (now : Nat)
    (h : DbInv st.db) : DbInv (create_room_response st uid name now).db := by
  rw [create_room_response]
  cases hu : get_user_by_id st.db uid with
  | none => exact h
  | some u =>
    simp only []
    rw [send_event_db]
    exact dbInv_create_room st.db name uid u.username now h

theorem dbInv_join_room_response (st : AppState) (uid iid now : Nat)
    (h : DbInv st.db) : DbInv (join_room_response st uid iid now).db := by
  rw [join_room_response]
  cases hinv1 : get_invitation_by_id st.db iid with
  | none => exact h
  | some inv =>
    simp only []
    cases hroom : get_room_by_id st.db inv.room_id with
    | none => exact h
    | some room =>
      simp only []
      by_cases hmem : ((get_members st.db inv.room_id).any (fun m => m.user_id = uid)) = true
      · rw [if_pos (by simpa using hmem)]
        exact h
      · rw [if_neg (by simpa using hmem)]
        cases hadmu : ((get_members st.db inv.room_id).find?
            (fun m => m.user_id = room.admin_id)).map (fun m => m.username) with
        | none => exact h
        | some admin_username =>
          simp only []
          cases hcre : get_user_by_id st.db room.creator_id with
          | none => exact h
          | some creator =>
            simp only []
            cases hinvitee : get_user_by_id st.db uid with
            | none => exact h
            | some invitee =>
              simp only []
              rw [send_event_db, foldl_send_event_db, create_and_broadcast_db]
              apply dbInv_insert_message
              apply dbInv_consume_join _ _ _ _ _ _ _ h
              · have hrm : room ∈ st.db.rooms := List.mem_of_find?_eq_some hroom
                have hrid : room.id = inv.room_id := by simpa using List.find?_some hroom
                rw [← hrid]
                exact h.2.2.2.1 room hrm
              · intro m hm hmr
                have hnot : ∀ x ∈ get_members st.db inv.room_id, ¬ x.user_id = uid := by
                  simpa using hmem
                have hmem2 : m ∈ get_members st.db inv.room_id := by
                  rw [get_members]
                  exact List.mem_filter.mpr ⟨hm, by simpa using hmr⟩
                exact hnot m hmem2

/-- Field preservation of the `left_at`-setting rewrite of `leave_room`. -/
theorem leave_f_proj (rid uid now : Nat) (m : RoomMember) :
    ((if m.room_id = rid ∧ m.user_id = uid ∧ m.left_at = none then
        { m with left_at := some now, is_visible := false } else m)).room_id = m.room_id
    ∧ ((if m.room_id = rid ∧ m.user_id = uid ∧ m.left_at = none then
        { m with left_at := some now, is_visible := false } else m)).user_id = m.user_id
    ∧ (((if m.room_id = rid ∧ m.user_id = uid ∧ m.left_at = none then
        { m with left_at := some now, is_visible := false } else m)).left_at = none →
        m.left_at = none) := by
  by_cases hc : (m.room_id = rid ∧ m.user_id = uid ∧ m.left_at = none)
  · rw [if_pos hc]
    exact ⟨rfl, rfl, fun hl => by simp at hl⟩
  · rw [if_neg hc]
    exact ⟨rfl, rfl, fun hl => hl⟩

theorem dbInv_leave_room (db : Db) (rid uid now : Nat) (h : DbInv db) :
    DbInv (leave_room db rid uid now).2 := by
  obtain ⟨h1, h2, h3, h4, h5⟩ := h
  rw [leave_room]
  cases hfind : db.rooms.find? (fun r => r.id = rid) with
  | none => exact ⟨h1, h2, h3, h4, h5⟩
  | some room =>
    simp only []
    have hroom_mem : room ∈ db.rooms := List.mem_of_find?_eq_some hfind
    have hroom_id : room.id = rid := by simpa using List.find?_some hfind
    by_cases hact : (db.members.any (fun m =>
        m.room_id = rid ∧ m.user_id = uid ∧ m.left_at = none)) = true
    case neg =>
      rw [if_neg (by simpa using hact)]
      refine dbInv_of_map db _ ?_ ⟨h1, h2, h3, h4, h5⟩ ?_
      · intro m
        by_cases hc : (m.room_id = rid ∧ m.user_id = uid)
        · rw [if_pos hc]
          exact ⟨rfl, rfl, fun hl => hl⟩
        · rw [if_neg hc]
          exact ⟨rfl, rfl, fun hl => hl⟩
      · intro r hr
        obtain ⟨m, hm, hf1, hf2, hf3⟩ := h2 r hr
        refine ⟨_, List.mem_map_of_mem _ hm, ?_⟩
        by_cases hc : (m.room_id = rid ∧ m.user_id = uid)
        · rw [if_pos hc]
          exact ⟨hf1, hf2, hf3⟩
        · rw [if_neg hc]
          exact ⟨hf1, hf2, hf3⟩
    case pos =>
      rw [if_pos (by simpa using hact)]
      by_cases hone : ((db.members.filter (fun m => m.room_id = rid ∧ m.left_at = none)).map
          (fun m => m.user_id)).length = 1
      · rw [if_pos hone]
        exact dbInv_rooms_filter db _ ⟨h1, h2, h3, h4, h5⟩
      · rw [if_neg hone]
        by_cases hadm : room.admin_id = uid
        case neg =>
          rw [if_neg hadm]
          refine dbInv_of_map db _ (fun m => leave_f_proj rid uid now m) ⟨h1, h2, h3, h4, h5⟩ ?_
          intro r hr
          obtain ⟨m, hm, hf1, hf2, hf3⟩ := h2 r hr
          refine ⟨_, List.mem_map_of_mem _ hm, ?_⟩
          by_cases hrid2 : r.id = rid
          · have hre : r = room := rooms_unique h1 hr hroom_mem (by rw [hrid2, hroom_id])
            have hmu : ¬ m.user_id = uid := by
              rw [hf2, hre]
              exact hadm
            rw [if_neg (fun hc => hmu hc.2.1)]
            exact ⟨hf1, hf2, hf3⟩
          · have hmr : ¬ m.room_id = rid := by
              rw [hf1]
              exact hrid2
            rw [if_neg (fun hc => hmr hc.1)]
            exact ⟨hf1, hf2, hf3⟩
        case pos =>
          rw [if_pos hadm]
          cases hna : ((db.members.filter (fun m => m.room_id = rid ∧ m.left_at = none)).map
              (fun m => m.user_id)).find? (fun i => ¬ i = uid) with
          | none => exact ⟨h1, h2, h3, h4, h5⟩
          | some na =>
            have hna_ne : ¬ na = uid := by simpa using List.find?_some hna
            obtain ⟨a, ha_mem, ha_eq⟩ := List.mem_map.mp (List.mem_of_find?_eq_some hna)
            have ha2 := List.mem_filter.mp ha_mem
            have ha_room : a.room_id = rid := by
              have := ha2.2
              simp only [decide_eq_true_eq] at this
              exact this.1
            have ha_left : a.left_at = none := by
              have := ha2.2
              simp only [decide_eq_true_eq] at this
              exact this.2
            have hgid : ∀ x : Room,
                ((if x.id = rid then { x with admin_id := na } else x)).id = x.id := by
              intro x
              by_cases hx : x.id = rid
              · rw [if_pos hx]
              · rw [if_neg hx]
            simp only []
            refine ⟨?_, ?_, ?_, ?_, ?_⟩
            · simp only []
              rw [List.pairwise_map]
              refine h1.imp ?_
              intro x y hxy
              rw [hgid x, hgid y]
              exact hxy
            · simp only []
              intro rr hrr
              obtain ⟨r, hrm, rfl⟩ := List.mem_map.mp hrr
              by_cases hr_rid : r.id = rid
              · have hre : r = room := rooms_unique h1 hrm hroom_mem (by rw [hr_rid, hroom_id])
                have hau : ¬ a.user_id = uid := by
                  rw [ha_eq]
                  exact hna_ne
                refine ⟨_, List.mem_map_of_mem _ ha2.1, ?_⟩
                rw [if_neg (fun hc => hau hc.2.1), if_pos hr_rid]
                exact ⟨ha_room.trans hr_rid.symm, ha_eq, ha_left⟩
              · obtain ⟨m, hm, hf1, hf2, hf3⟩ := h2 r hrm
                have hmr : ¬ m.room_id = rid := by
                  rw [hf1]
                  exact hr_rid
                refine ⟨_, List.mem_map_of_mem _ hm, ?_⟩
                rw [if_neg (fun hc => hmr hc.1), if_neg hr_rid]
                exact ⟨hf1, hf2, hf3⟩
            · simp only []
              rw [List.pairwise_map]
              refine h3.imp ?_
              intro x y hxy
              obtain ⟨p1, p2, p3⟩ := leave_f_proj rid uid now x
              obtain ⟨q1, q2, q3⟩ := leave_f_proj rid uid now y
              rw [p1, q1, p2, q2]
              intro he hla hlb
              exact hxy he (p3 hla) (q3 hlb)
            · simp only []
              intro rr hrr
              obtain ⟨r, hrm, rfl⟩ := List.mem_map.mp hrr
              rw [hgid r]
              exact h4 r hrm
            · simp only []
              intro mm hmm
              obtain ⟨m, hm, rfl⟩ := List.mem_map.mp hmm
              rw [(leave_f_proj rid uid now m).1]
              exact h5 m hm

theorem dbInv_leave_room_response (st : AppState) (uid rid now : Nat)
    (h : DbInv st.db) : DbInv (leave_room_response st uid rid now).db := by
  rw [leave_room_response]
  cases hroom : get_room_by_id st.db rid with
  | none => exact h
  | some room0 =>
    simp only []
    by_cases hmem : is_member st.db rid uid = true
    case neg =>
      rw [if_pos (by simpa using hmem)]
      exact h
    case pos =>
      rw [if_neg (by simpa using hmem)]
      have hlv2 : DbInv (leave_room st.db rid uid now).2 :=
        dbInv_leave_room st.db rid uid now h
      cases hlv : leave_room st.db rid uid now with
      | mk res db1 =>
        rw [hlv] at hlv2
        cases res with
        | error e =>
          simp only []
          rw [send_error, send_event_db]
          exact hlv2
        | ok o =>
          cases o with
          | none =>
            simp only []
            rw [send_error, send_event_db]
            exact hlv2
          | some pr =>
            simp only []
            rw [send_event_db, create_and_broadcast_db]
            exact dbInv_insert_message _ _ _ _ _ _ _ _ hlv2

theorem dbInv_kick_member_response (st : AppState) (uid rid : Nat) (uname : String)
    (now : Nat) (h : DbInv st.db)
    (hsafe : ∀ room, get_room_by_id st.db rid = some room →
      ∀ u, get_user_by_username st.db uname = some u → u.id ≠ room.admin_id) :
    DbInv (kick_member_response st uid rid uname now).db := by
  rw [kick_member_response]
  cases hroom : get_room_by_id st.db rid with
  | none => exact h
  | some room =>
    simp only []
    by_cases hadm : is_admin st.db rid uid = true
    case neg =>
      rw [if_pos (by simpa using hadm)]
      exact h
    case pos =>
      rw [if_neg (by simpa using hadm)]
      cases hu : get_user_by_username st.db uname with
      | none => exact h
      | some target =>
        simp only []
        cases hrm : remove_member st.db rid target.id with
        | mk fst snd =>
          cases fst with
          | none => exact h
          | some deleted =>
            simp only []
            rw [send_event_db, foldl_send_event_db, send_event_db, create_and_broadcast_db]
            apply dbInv_insert_message
            have hsnd : snd = { st.db with members := st.db.members.filter (fun m => ¬ (m.room_id = rid ∧ m.user_id = target.id)) } := by
              have h2 := congrArg Prod.snd hrm
              simpa [remove_member] using h2.symm
            rw [hsnd]
            refine dbInv_of_filter st.db _ h ?_
            intro r hr
            obtain ⟨m, hm, hf1, hf2, hf3⟩ := h.2.1 r hr
            refine ⟨m, List.mem_filter.mpr ⟨hm, ?_⟩, hf1, hf2, hf3⟩
            by_cases hrid2 : m.room_id = rid
            · have hr_id : r.id = rid := by rw [← hf1, hrid2]
              have hfm : room ∈ st.db.rooms := List.mem_of_find?_eq_some hroom
              have hfi : room.id = rid := by simpa using List.find?_some hroom
              have hre : r = room := rooms_unique h.1 hr hfm (by rw [hr_id, hfi])
              have hne : ¬ m.user_id = target.id := by
                rw [hf2, hre]
                exact fun he => (hsafe room hroom target hu) he.symm
              simp [hne]
            · simp [hrid2]

theorem dbInv_step (st : AppState) (op : Op) (h : DbInv st.db) (hs : KickSafe st op) :
    DbInv (step st op).db := by
  cases op with
  | createRoom a n t => exact dbInv_create_room_response st a n t h
  | joinRoom a i t => exact dbInv_join_room_response st a i t h
  | leaveRoom a r t => exact dbInv_leave_room_response st a r t h
  | kickMember a r u t => exact dbInv_kick_member_response st a r u t h hs

theorem dbInv_run (st : AppState) (ops : List Op) (h : DbInv st.db)
    (hs : SafeTrace st ops) : DbInv (run st ops).db := by
  induction ops generalizing st with
  | nil => exact h
  | cons op rest ih => exact ih (step st op) (dbInv_step st op h hs.1) hs.2

/-! ## Claim C3 -/

/-- C3 counterexample: from a state with users alice (1) and bob (2) and a
pending invitation, the reachable sequence [alice creates room 0, bob
joins, admin alice kicks herself] leaves room 0 with an active member
(bob) and `admin_id = 1`, yet alice has no active membership row: the
invariant of the claim fails on the code, because `KickMember` lets the
admin remove themselves without reassigning `admin_id`. -/
theorem claim3_counterexample :
    (∃ m ∈ (run c3Start c3Ops).db.members, m.room_id = 0 ∧ m.left_at = none)
    ∧ (∃ r ∈ (run c3Start c3Ops).db.rooms, r.id = 0 ∧ r.admin_id = 1)
    ∧ ∀ m ∈ (run c3Start c3Ops).db.members,
        ¬ (m.room_id = 0 ∧ m.user_id = 1 ∧ m.left_at = none) := by
  decide

/-- C3 amended: under every sequence of create/join/leave/kick operations
in which no kick removes the sitting admin of its room (the admin
self-kick of the counterexample being the only way a kick can do that),
every room row of every reachable state is unique for its id and its
`admin_id` is an active member — in particular an admin's leave promotes
another active member. -/
theorem claim3_admin_invariant (st : AppState) (ops : List Op)
    (hinv : DbInv st.db) (hsafe : SafeTrace st ops) :
    DbInv (run st ops).db
    ∧ ∀ r ∈ (run st ops).db.rooms,
        (run st ops).db.rooms.filter (fun x => x.id = r.id) = [r]
        ∧ ∃ m ∈ (run st ops).db.members,
            m.room_id = r.id ∧ m.user_id = r.admin_id ∧ m.left_at = none := by
  have h := dbInv_run st ops hinv hsafe
  refine ⟨h, ?_⟩
  intro r hr
  exact ⟨rooms_filter_of_unique h.1 hr, h.2.1 r hr⟩

theorem claim3_admin_invariant_witness :
    c3WitRoom ∈ (run c3WitSt [Op.leaveRoom 1 0 5]).db.rooms
    ∧ ((run c3WitSt [Op.leaveRoom 1 0 5]).db.rooms.filter (fun x => x.id = c3WitRoom.id)
          = [c3WitRoom]
        ∧ ∃ m ∈ (run c3WitSt [Op.leaveRoom 1 0 5]).db.members,
            m.room_id = c3WitRoom.id ∧ m.user_id = c3WitRoom.admin_id ∧ m.left_at = none) :=
  ⟨by decide,
   (claim3_admin_invariant c3WitSt [Op.leaveRoom 1 0 5] (by unfold DbInv; decide)
     ⟨trivial, trivial⟩).2 c3WitRoom (by decide)⟩

end RustChat
